import Mathlib

/-!
Verification of the miruken `Context` library (src/context.js).

A `Context` is a tree node with a three-valued lifecycle state
(Active, Ending, Ended), an ordered list of children, an optional
observer list and an opaque base callback-handling capability.  We model
the heap of live contexts as an association list from numeric ids to
context records, and each public operation of the source as an explicit
state-passing function on that world.  Observer notifications and state
assignments are recorded in an event trace; observers themselves are
passive identifiers (the source dispatches to them dynamically, which
is outside the single-context state machine being specified).
-/

namespace MirukenContext

/-- `ContextState` enum from src/context.js: Active = 1, Ending = 2, Ended = 3. -/
inductive ContextState where
  | Active
  | Ending
  | Ended
deriving DecidableEq, Repr

/-- Numeric value of a `ContextState`, matching the `Enum` values in the source. -/
def ContextState.toNat : ContextState → Nat
  | .Active => 1
  | .Ending => 2
  | .Ended => 3

/-- Forward order on lifecycle states: Active (1) ≤ Ending (2) ≤ Ended (3). -/
def stateLe (s t : ContextState) : Prop := s.toNat ≤ t.toNat

instance (s t : ContextState) : Decidable (stateLe s t) := by
  unfold stateLe; infer_instance

/-- The four notification methods of the `ContextObserver` protocol. -/
inductive Method where
  | contextEnding
  | contextEnded
  | childContextEnding
  | childContextEnded
deriving DecidableEq, Repr

/-- Trace events: a notification delivered to one observer, or an assignment
to a context's `_state` field. -/
inductive Event where
  | notify (observer : Nat) (m : Method) (ctx : Nat)
  | stateSet (ctx : Nat) (s : ContextState)
deriving DecidableEq, Repr

/-- One context record: the private per-instance state captured by the
constructor closure in src/context.js (`_state`, `_parent`, `_children`,
`_observers`), plus `handles` abstracting the opaque `CompositeHandler`
base capability ("which callbacks does this node's own base handling accept")
and `stored` abstracting the `$provide` registrations made by `store`. -/
structure Ctx where
  state : ContextState
  parent : Option Nat
  children : List Nat
  observers : Option (List Nat)
  handles : List Nat
  stored : List Nat
deriving DecidableEq, Repr

/-- The heap of live contexts plus the id supply (`assignID`). -/
structure World where
  ctxs : List (Nat × Ctx)
  nextId : Nat
deriving DecidableEq, Repr

/-- First-match association-list lookup. -/
def lookupA : List (Nat × Ctx) → Nat → Option Ctx
  | [], _ => none
  | p :: l, i => if p.1 = i then some p.2 else lookupA l i

/-- Update the first entry with the given key (each live context is a single
JS object, so a key occurs at most once in worlds built by the API). -/
def updateA : List (Nat × Ctx) → Nat → (Ctx → Ctx) → List (Nat × Ctx)
  | [], _, _ => []
  | p :: l, i, f => if p.1 = i then (p.1, f p.2) :: l else p :: updateA l i f

def lookupW (w : World) (i : Nat) : Option Ctx := lookupA w.ctxs i

def updateCtx (w : World) (i : Nat) (f : Ctx → Ctx) : World :=
  { w with ctxs := updateA w.ctxs i f }

def stateAt (w : World) (i : Nat) : Option ContextState := (lookupW w i).map Ctx.state

def parentOf (w : World) (i : Nat) : Option Nat := (lookupW w i).bind Ctx.parent

/-- The `children` getter: `_children.slice()` — a snapshot copy (modelled as
the list value itself, which is immutable here); missing context gives []. -/
def childrenOf (w : World) (i : Nat) : List Nat := ((lookupW w i).map Ctx.children).getD []

/-- Number of occurrences of `x` in the children list of context `j`. -/
def childCount (w : World) (j x : Nat) : Nat := (childrenOf w j).count x

/-- `Array.prototype.splice(indexOf(x), 1)`: remove the first occurrence. -/
def removeFirst : List Nat → Nat → List Nat
  | [], _ => []
  | x :: l, y => if x = y then l else x :: removeFirst l y

def setStateW (w : World) (i : Nat) (s : ContextState) : World :=
  updateCtx w i (fun c => { c with state := s })

/-- `makeNotifier()`: snapshot of `_observers` (`_observers && _observers.slice()`),
empty when the list is null/undefined. -/
def snapshotObs (c : Ctx) : List Nat := c.observers.getD []

/-- Deliver one notification method with argument `ctx` to every observer of a
snapshot, in snapshot order. -/
def notifyAll (snap : List Nat) (m : Method) (ctx : Nat) : List Event :=
  snap.map (fun o => Event.notify o m ctx)

/-- `for (const child of l) child.end()`: run an end function over a fixed list
of child ids, threading the world and concatenating traces. -/
def endAll (endFn : World → Nat → World × List Event) :
    World → List Nat → World × List Event
  | w, [] => (w, [])
  | w, cid :: rest =>
    let r := endFn w cid
    let r2 := endAll endFn r.1 rest
    (r2.1, r.2 ++ r2.2)

/-- The base `end()` of src/context.js lines 259-269, parameterised by the end
function used for children (the recursive tie is made in `endD`):
if Active — snapshot observers, set state Ending, notify `contextEnding`,
unwind (end all current children), set state Ended, notify `contextEnded`,
null out the observer list; otherwise do nothing. -/
def baseEndWith (endFn : World → Nat → World × List Event) (w : World) (id : Nat) :
    World × List Event :=
  match lookupW w id with
  | none => (w, [])
  | some c =>
    if c.state = ContextState.Active then
      let snap := snapshotObs c
      let w1 := setStateW w id ContextState.Ending
      let r := endAll endFn w1 (childrenOf w1 id)
      (updateCtx r.1 id (fun q => { q with state := ContextState.Ended, observers := none }),
       (Event.stateSet id ContextState.Ending :: notifyAll snap Method.contextEnding id)
         ++ r.2
         ++ (Event.stateSet id ContextState.Ended :: notifyAll snap Method.contextEnded id))
    else (w, [])

/-- The overridden `end()` installed by `newChild` (src/context.js lines 141-149):
if the child is absent from the parent's `_children`, do nothing; otherwise make
a notifier from the parent's observers, notify `childContextEnding`, splice the
child out of the parent's `_children`, run the base end, notify
`childContextEnded`. -/
def childEndWith (endFn : World → Nat → World × List Event) (w : World) (id pid : Nat) :
    World × List Event :=
  match lookupW w pid with
  | none => (w, [])
  | some p =>
    if id ∈ p.children then
      let snap := snapshotObs p
      let w1 := updateCtx w pid (fun q => { q with children := removeFirst q.children id })
      let r := baseEndWith endFn w1 id
      (r.1, notifyAll snap Method.childContextEnding id
              ++ r.2 ++ notifyAll snap Method.childContextEnded id)
    else (w, [])

/-- `end()` dispatch with a fuel bound on recursion depth into children:
contexts created by `newChild` (those with a parent) run the override,
root contexts run the base end directly. -/
def endD : Nat → World → Nat → World × List Event
  | 0, w, _ => (w, [])
  | fuel + 1, w, id =>
    match lookupW w id with
    | none => (w, [])
    | some c =>
      match c.parent with
      | none => baseEndWith (endD fuel) w id
      | some pid => childEndWith (endD fuel) w id pid

/-- Fuel large enough for any tree reachable in a well-formed world. -/
def defaultFuel (w : World) : Nat := w.ctxs.length + 1

def endCtx (w : World) (id : Nat) : World × List Event := endD (defaultFuel w) w id

/-- `unwind()` (src/context.js lines 249-254): end every child in a snapshot
of `children` taken before iteration. -/
def unwindD (fuel : Nat) (w : World) (id : Nat) : World × List Event :=
  endAll (endD fuel) w (childrenOf w id)

/-- `unwind()` with default fuel; the second component is the JS return value
(`return this`). -/
def unwindCtx (w : World) (id : Nat) : (World × List Event) × Nat :=
  (unwindD (defaultFuel w) w id, id)

/-- Walk `parent` links to the top (`unwindToRootContext`'s loop). -/
def rootOf : Nat → World → Nat → Nat
  | 0, _, id => id
  | fuel + 1, w, id =>
    match parentOf w id with
    | none => id
    | some p => rootOf fuel w p

/-- `newChild()` (src/context.js lines 138-153): requires Active
(`ensureActive`, else the IllegalState error), constructs a fresh context
parented to `this`, pushes it onto `_children`, returns it. -/
def newChild (w : World) (pid : Nat) : Except String (World × Nat) :=
  match lookupW w pid with
  | none => Except.error "no such context"
  | some p =>
    if p.state = ContextState.Active then
      let cid := w.nextId
      let child : Ctx :=
        { state := ContextState.Active, parent := some pid, children := [],
          observers := none, handles := [], stored := [] }
      Except.ok
        ({ ctxs := (cid, child)
                     :: (updateCtx w pid (fun q => { q with children := q.children ++ [cid] })).ctxs,
           nextId := w.nextId + 1 }, cid)
    else Except.error "The context has already ended."

/-- `observe(observer)` (src/context.js lines 213-223): `ensureActive` first
(IllegalState unless Active); a nothing observer is ignored (the JS function
returns undefined — the Bool records whether an unsubscribe function was
returned); otherwise push onto the lazily created `_observers`. -/
def observe (w : World) (id : Nat) (obs : Option Nat) : Except String (World × Bool) :=
  match lookupW w id with
  | none => Except.error "no such context"
  | some c =>
    if c.state = ContextState.Active then
      match obs with
      | none => Except.ok (w, false)
      | some o =>
        Except.ok
          (updateCtx w id
            (fun q => { q with observers := some ((q.observers.getD []) ++ [o]) }), true)
    else Except.error "The context has already ended."

/-- The unsubscribe closure returned by `observe`: `_observers.indexOf(observer)`
then splice if present.  When `end()` has nulled `_observers`, the call to
`indexOf` on null throws a TypeError. -/
def unsubscribe (w : World) (id : Nat) (o : Nat) : Except String World :=
  match lookupW w id with
  | none => Except.error "no such context"
  | some c =>
    match c.observers with
    | none => Except.error "TypeError: cannot read indexOf of null"
    | some l =>
      Except.ok (updateCtx w id (fun q => { q with observers := some (removeFirst l o) }))

/-- `store(object)` (src/context.js lines 161-166): no lifecycle check; if the
object is something, register it via `$provide`; always return `this`
(the second component is the JS return value). -/
def store (w : World) (id : Nat) (obj : Option Nat) : World × Nat :=
  match lookupW w id with
  | none => (w, id)
  | some _ =>
    match obj with
    | none => (w, id)
    | some o => (updateCtx w id (fun q => { q with stored := q.stored ++ [o] }), id)

/-- The externally observable mutating operations of the public API. -/
inductive Op where
  | newChildOp (pid : Nat)
  | endOp (id : Nat)
  | unwindOp (id : Nat)
  | unwindRootOp (id : Nat)
  | observeOp (id : Nat) (obs : Option Nat)
  | unsubOp (id : Nat) (o : Nat)
  | storeOp (id : Nat) (obj : Option Nat)
deriving DecidableEq, Repr

/-- One operation step; a raised error leaves the world unchanged (the source
throws before any mutation). -/
def stepOp (w : World) : Op → World × List Event
  | .newChildOp pid =>
    match newChild w pid with
    | .ok r => (r.1, [])
    | .error _ => (w, [])
  | .endOp id => endCtx w id
  | .unwindOp id => (unwindCtx w id).1
  | .unwindRootOp id => (unwindCtx w (rootOf (defaultFuel w) w id)).1
  | .observeOp id obs =>
    match observe w id obs with
    | .ok r => (r.1, [])
    | .error _ => (w, [])
  | .unsubOp id o =>
    match unsubscribe w id o with
    | .ok w2 => (w2, [])
    | .error _ => (w, [])
  | .storeOp id obj => ((store w id obj).1, [])

/-- Run a sequence of operations, concatenating traces. -/
def runOps : World → List Op → World × List Event
  | w, [] => (w, [])
  | w, op :: rest =>
    let r := stepOp w op
    let r2 := runOps r.1 rest
    (r2.1, r.2 ++ r2.2)

/-- The `_state` assignments recorded for one context, in order. -/
def stateSetsFor (id : Nat) (tr : List Event) : List ContextState :=
  tr.filterMap (fun e =>
    match e with
    | Event.stateSet j s => if j = id then some s else none
    | _ => none)

/-- Ids are always drawn below the id supply (holds for every world built by
the constructor discipline of the source, where `assignID` never reuses ids). -/
def WFIds (w : World) : Prop := ∀ p ∈ w.ctxs, p.1 < w.nextId

instance (w : World) : Decidable (WFIds w) := by
  unfold WFIds; infer_instance

/-- The external `TraversingAxis` enum consumed by the source (miruken-core). -/
inductive Axis where
  | Self
  | Root
  | Child
  | Sibling
  | Ancestor
  | Descendant
  | DescendantReverse
  | SelfOrChild
  | SelfOrSibling
  | SelfOrAncestor
  | SelfOrDescendant
  | SelfOrDescendantReverse
  | SelfSiblingOrAncestor
deriving DecidableEq, Repr

/-- `this.base(callback, greedy, composer)`: the opaque inherited
`CompositeHandler` capability of one node, abstracted as membership in the
node's `handles` set. -/
def baseHandles (w : World) (id cb : Nat) : Bool :=
  match lookupW w id with
  | none => false
  | some c => c.handles.contains cb

/-- The visitor loop of the non-Self axis branch (src/context.js lines 182-187):
`handled = handled | (node == this ? this.base(...) : node.handleAxis(Self, ...))`
with the traversal stopping as soon as the visitor returns `handled && !greedy`.
Visiting a node always reduces to that node's own base handling, whether it is
`this` (direct `this.base`) or another node (`handleAxis(Self)` consumes the
Self tag and runs the node's base).  Returns the result and the list of nodes
whose base handling was invoked, in order. -/
def traverseVisit (w : World) (cb : Nat) (greedy : Bool) :
    List Nat → Bool → Bool × List Nat
  | [], handled => (handled, [])
  | n :: rest, handled =>
    let h2 := handled || baseHandles w n cb
    if h2 && !greedy then (h2, [n])
    else
      let r := traverseVisit w cb greedy rest h2
      (r.1, n :: r.2)

/-- `handleCallback(callback, greedy, composer)` (src/context.js lines 167-190).
`an` abstracts the externally supplied traversal: the ordered node sequence the
miruken-core `traverse` visits for a given axis and start node.  The pending
axis tag (`this[Axis]`, transient, consumed on use) is passed explicitly.
Fuel bounds the parent-chain recursion.  Returns the handled flag and the list
of nodes whose base handling was queried, in order. -/
def handleCB (an : Axis → Nat → List Nat) :
    Nat → World → Nat → Option Axis → Nat → Bool → Bool × List Nat
  | 0, _, _, _, _, _ => (false, [])
  | fuel + 1, w, id, tag, cb, greedy =>
    match tag with
    | none =>
      let h := baseHandles w id cb
      if h && !greedy then (true, [id])
      else
        match parentOf w id with
        | none => (h, [id])
        | some p =>
          let r := handleCB an fuel w p none cb greedy
          (h || r.1, id :: r.2)
    | some ax =>
      if ax = Axis.Self then (baseHandles w id cb, [id])
      else traverseVisit w cb greedy (an ax id) false

/-- The chain of nodes the no-axis case queries: the node itself followed by
its ancestors, truncated by fuel. -/
def parentChain : Nat → World → Nat → List Nat
  | 0, _, _ => []
  | fuel + 1, w, id =>
    id :: (match parentOf w id with
           | none => []
           | some p => parentChain fuel w p)

/-- Elements of a list up to and including the first one satisfying `p`
(the whole list when none does). -/
def takeThrough (p : Nat → Bool) : List Nat → List Nat
  | [] => []
  | x :: l => if p x then [x] else x :: takeThrough p l

/-- Shorthand for building concrete context records. -/
def mkCtx (s : ContextState) (par : Option Nat) (ch : List Nat)
    (obs : Option (List Nat)) (hs : List Nat) : Ctx :=
  { state := s, parent := par, children := ch, observers := obs, handles := hs, stored := [] }

/-- A world with a single Active root context, id 0. -/
def wRoot : World := { ctxs := [(0, mkCtx .Active none [] none [])], nextId := 1 }

/-- A world with a single Ended root context, id 0. -/
def wEnded : World := { ctxs := [(0, mkCtx .Ended none [] none [])], nextId := 1 }

/-- Active root 0 whose own base handling accepts callback 1, with one child 1
that handles nothing. -/
def wPair : World :=
  { ctxs := [(0, mkCtx .Active none [1] none [1]),
             (1, mkCtx .Active (some 0) [] none [])], nextId := 2 }

/-- Active root 0 observed by observer 7, with two childless Active children
1 and 2. -/
def wFam : World :=
  { ctxs := [(0, mkCtx .Active none [1, 2] (some [7]) []),
             (1, mkCtx .Active (some 0) [] none []),
             (2, mkCtx .Active (some 0) [] none [])], nextId := 3 }

/-- Single Active root 0 with observer 5 registered (the world `observe`
produces from `wRoot`). -/
def wObs5 : World := { ctxs := [(0, mkCtx .Active none [] (some [5]) [])], nextId := 1 }

/-- A fixed traversal returning nodes 0 then 1 for every axis, for witnesses. -/
def anPair : Axis → Nat → List Nat := fun _ _ => [0, 1]

/-- Per-context dichotomy established by one end-type call `r` on a world `w`,
for a tracked context `id` whose record in `w` is `c`: the context survives
with its parent link intact; if it was not Active it keeps its state, receives
no state assignments in the trace, and its occurrence counts in children lists
do not increase; if it was Active it either remains Active untouched (no state
assignments, counts unchanged) or has been fully ended (state Ended, exactly
the Ending-then-Ended assignment pair in the trace, counts not increased). -/
def EndStep (w : World) (id : Nat) (c : Ctx) (r : World × List Event) : Prop :=
  ∃ c', lookupW r.1 id = some c' ∧ c'.parent = c.parent ∧
    (c.state ≠ ContextState.Active →
      c'.state = c.state ∧ stateSetsFor id r.2 = [] ∧
      ∀ k, childCount r.1 k id ≤ childCount w k id) ∧
    (c.state = ContextState.Active →
      (c'.state = ContextState.Active ∧ stateSetsFor id r.2 = [] ∧
        ∀ k, childCount r.1 k id = childCount w k id) ∨
      (c'.state = ContextState.Ended ∧
        stateSetsFor id r.2 = [ContextState.Ending, ContextState.Ended] ∧
        ∀ k, childCount r.1 k id ≤ childCount w k id))

/-- An end function satisfies the dichotomy for every tracked context. -/
def EndOK (e : World → Nat → World × List Event) : Prop :=
  ∀ w j id c, lookupW w id = some c → EndStep w id c (e w j)

/-- An end-type call preserves the id supply and the key set, and assigns no
state to ids that are not live. -/
def EndPres (e : World → Nat → World × List Event) : Prop :=
  ∀ w j, (e w j).1.nextId = w.nextId ∧
    (e w j).1.ctxs.map Prod.fst = w.ctxs.map Prod.fst ∧
    ∀ id, lookupW w id = none → stateSetsFor id (e w j).2 = []

theorem lookupA_bound {l : List (Nat × Ctx)} {n : Nat} (h : ∀ p ∈ l, p.1 < n)
    {id : Nat} {c : Ctx} (hl : lookupA l id = some c) : id < n := by
  induction l with
  | nil => simp [lookupA] at hl
  | cons p l ih =>
    simp only [lookupA] at hl
    by_cases hp : p.1 = id
    · subst hp; exact h p (by simp)
    · simp only [if_neg hp] at hl
      exact ih (fun q hq => h q (List.mem_cons_of_mem _ hq)) hl

theorem WFIds.lt {w : World} (h : WFIds w) {id : Nat} {c : Ctx}
    (hl : lookupW w id = some c) : id < w.nextId :=
  lookupA_bound h hl

theorem lookupA_update (l : List (Nat × Ctx)) (j : Nat) (f : Ctx → Ctx) (i : Nat) :
    lookupA (updateA l j f) i = if i = j then (lookupA l j).map f else lookupA l i := by
  induction l with
  | nil => by_cases h : i = j <;> simp [updateA, lookupA, h]
  | cons p l ih =>
    obtain ⟨k, c⟩ := p
    simp only [updateA]
    by_cases hp : k = j
    · subst hp
      by_cases hij : i = k
      · subst hij; simp [lookupA]
      · have hki : ¬ k = i := fun h => hij h.symm
        simp [lookupA, hij, hki]
    · by_cases hij : i = j
      · subst hij
        have hki : ¬ k = i := hp
        simp [lookupA, hp, hki, ih]
      · simp only [if_neg hp, lookupA, ih, if_neg hij]

theorem lookupW_update (w : World) (j : Nat) (f : Ctx → Ctx) (i : Nat) :
    lookupW (updateCtx w j f) i = if i = j then (lookupW w j).map f else lookupW w i :=
  lookupA_update w.ctxs j f i

theorem updateA_id (l : List (Nat × Ctx)) (i : Nat) (f : Ctx → Ctx)
    (h : ∀ c, lookupA l i = some c → f c = c) : updateA l i f = l := by
  induction l with
  | nil => rfl
  | cons p l ih =>
    obtain ⟨k, c⟩ := p
    simp only [updateA]
    by_cases hp : k = i
    · have hf := h c (by simp [lookupA, hp])
      simp [hp, hf]
    · simp only [if_neg hp]
      rw [ih (fun d hd => h d (by simp [lookupA, hp, hd]))]

theorem updateCtx_id (w : World) (i : Nat) (f : Ctx → Ctx)
    (h : ∀ c, lookupW w i = some c → f c = c) : updateCtx w i f = w := by
  unfold updateCtx
  rw [updateA_id w.ctxs i f h]

theorem removeFirst_of_not_mem (l : List Nat) (y : Nat) (h : y ∉ l) :
    removeFirst l y = l := by
  induction l with
  | nil => rfl
  | cons x l ih =>
    have hx : ¬ x = y := fun hxy => h (by simp [hxy])
    simp only [removeFirst, if_neg hx]
    rw [ih (fun hm => h (by simp [hm]))]

theorem count_removeFirst_self (l : List Nat) (y : Nat) :
    (removeFirst l y).count y = l.count y - 1 := by
  induction l with
  | nil => rfl
  | cons x l ih =>
    by_cases hx : x = y
    · subst hx; simp [removeFirst, List.count_cons_self]
    · simp [removeFirst, hx, ih, List.count_cons_of_ne (fun h => hx h.symm)]

theorem count_removeFirst_ne (l : List Nat) (y x : Nat) (h : ¬ x = y) :
    (removeFirst l y).count x = l.count x := by
  induction l with
  | nil => rfl
  | cons z l ih =>
    by_cases hz : z = y
    · subst hz
      simp [removeFirst, List.count_cons_of_ne h]
    · simp only [removeFirst, if_neg hz]
      by_cases hzx : z = x
      · subst hzx; simp [List.count_cons_self, ih]
      · simp [List.count_cons_of_ne (fun h2 => hzx h2.symm), ih]

theorem updateA_updateA (l : List (Nat × Ctx)) (i : Nat) (f g : Ctx → Ctx) :
    updateA (updateA l i f) i g = updateA l i (fun c => g (f c)) := by
  induction l with
  | nil => rfl
  | cons p l ih =>
    obtain ⟨k, c⟩ := p
    by_cases hk : k = i
    · simp [updateA, hk]
    · simp [updateA, hk, ih]

theorem updateCtx_updateCtx (w : World) (i : Nat) (f g : Ctx → Ctx) :
    updateCtx (updateCtx w i f) i g = updateCtx w i (fun c => g (f c)) := by
  unfold updateCtx
  simp [updateA_updateA]

theorem stateSetsFor_append (id : Nat) (t1 t2 : List Event) :
    stateSetsFor id (t1 ++ t2) = stateSetsFor id t1 ++ stateSetsFor id t2 := by
  simp [stateSetsFor]

theorem stateSetsFor_notifyAll (id : Nat) (snap : List Nat) (m : Method) (ctx : Nat) :
    stateSetsFor id (notifyAll snap m ctx) = [] := by
  induction snap with
  | nil => rfl
  | cons o rest ih => simp [notifyAll, stateSetsFor]

theorem stateSetsFor_stateSet_self (id : Nat) (s : ContextState) (tr : List Event) :
    stateSetsFor id (Event.stateSet id s :: tr) = s :: stateSetsFor id tr := by
  simp [stateSetsFor]

theorem stateSetsFor_stateSet_ne (id j : Nat) (s : ContextState) (tr : List Event)
    (h : ¬ j = id) :
    stateSetsFor id (Event.stateSet j s :: tr) = stateSetsFor id tr := by
  simp [stateSetsFor, h]

theorem childrenOf_update (w : World) (j : Nat) (f : Ctx → Ctx) (k : Nat) :
    childrenOf (updateCtx w j f) k =
      if k = j then ((lookupW w j).map (fun c => (f c).children)).getD []
      else childrenOf w k := by
  unfold childrenOf
  rw [lookupW_update]
  by_cases h : k = j
  · subst h
    cases hl : lookupW w k <;> simp [hl]
  · simp [h]

theorem childrenOf_update_same (w : World) (j : Nat) (f : Ctx → Ctx) (k : Nat)
    (h : ∀ c, (f c).children = c.children) :
    childrenOf (updateCtx w j f) k = childrenOf w k := by
  rw [childrenOf_update]
  by_cases hk : k = j
  · subst hk
    cases hl : lookupW w k <;> simp [childrenOf, hl, h]
  · simp [hk]

theorem childCount_update_same (w : World) (j : Nat) (f : Ctx → Ctx) (k x : Nat)
    (h : ∀ c, (f c).children = c.children) :
    childCount (updateCtx w j f) k x = childCount w k x := by
  unfold childCount
  rw [childrenOf_update_same w j f k h]

theorem endStep_refl (w : World) (id : Nat) (c : Ctx) (hl : lookupW w id = some c) :
    EndStep w id c (w, []) := by
  refine ⟨c, hl, rfl, ?_, ?_⟩
  · intro _
    exact ⟨rfl, rfl, fun k => Nat.le_refl _⟩
  · intro h
    exact Or.inl ⟨h, rfl, fun k => rfl⟩

theorem endStep_trans (w : World) (id : Nat) (c : Ctx) (r1 r2 : World × List Event)
    (h1 : EndStep w id c r1)
    (h2 : ∀ c1, lookupW r1.1 id = some c1 → EndStep r1.1 id c1 r2) :
    EndStep w id c (r2.1, r1.2 ++ r2.2) := by
  obtain ⟨c1, hc1, hp1, hn1, ha1⟩ := h1
  obtain ⟨c2, hc2, hp2, hn2, ha2⟩ := h2 c1 hc1
  refine ⟨c2, hc2, by rw [hp2, hp1], ?_, ?_⟩
  · intro h
    obtain ⟨hs1, hset1, hcnt1⟩ := hn1 h
    obtain ⟨hs2, hset2, hcnt2⟩ := hn2 (by rw [hs1]; exact h)
    exact ⟨by rw [hs2, hs1], by rw [stateSetsFor_append, hset1, hset2, List.append_nil],
           fun k => Nat.le_trans (hcnt2 k) (hcnt1 k)⟩
  · intro h
    rcases ha1 h with ⟨hs1, hset1, hcnt1⟩ | ⟨hs1, hset1, hcnt1⟩
    · rcases ha2 hs1 with ⟨hs2, hset2, hcnt2⟩ | ⟨hs2, hset2, hcnt2⟩
      · exact Or.inl ⟨hs2, by simp [stateSetsFor_append, hset1, hset2], fun k =>
          (hcnt2 k).trans (hcnt1 k)⟩
      · refine Or.inr ⟨hs2, by simp [stateSetsFor_append, hset1, hset2], fun k => ?_⟩
        calc childCount r2.1 k id ≤ childCount r1.1 k id := hcnt2 k
          _ = childCount w k id := hcnt1 k
    · obtain ⟨hs2, hset2, hcnt2⟩ := hn2 (by rw [hs1]; simp)
      refine Or.inr ⟨by rw [hs2, hs1], by rw [stateSetsFor_append, hset1, hset2, List.append_nil],
        fun k => Nat.le_trans (hcnt2 k) (hcnt1 k)⟩

theorem endAll_ok (e : World → Nat → World × List Event) (he : EndOK e) :
    ∀ (l : List Nat) (w : World) (id : Nat) (c : Ctx), lookupW w id = some c →
      EndStep w id c (endAll e w l) := by
  intro l
  induction l with
  | nil =>
    intro w id c hl
    exact endStep_refl w id c hl
  | cons y rest ih =>
    intro w id c hl
    simp only [endAll]
    exact endStep_trans w id c (e w y) (endAll e (e w y).1 rest)
      (he w y id c hl) (fun c1 hc1 => ih (e w y).1 id c1 hc1)

theorem baseEnd_ok (e : World → Nat → World × List Event) (he : EndOK e) :
    EndOK (fun w j => baseEndWith e w j) := by
  intro w j id c hl
  simp only [baseEndWith]
  cases hj : lookupW w j with
  | none => exact endStep_refl w id c hl
  | some cj =>
    by_cases hsj : cj.state = ContextState.Active
    · simp only [if_pos hsj]
      by_cases hij : id = j
      · subst hij
        have hcc : c = cj := by
          rw [hl] at hj; cases hj; rfl
        subst hcc
        have hl1 : lookupW (setStateW w id ContextState.Ending) id
            = some { c with state := ContextState.Ending } := by
          unfold setStateW
          rw [lookupW_update]
          simp [hl]
        obtain ⟨cm, hcm, hpm, hnm, _⟩ :=
          endAll_ok e he (childrenOf (setStateW w id ContextState.Ending) id)
            (setStateW w id ContextState.Ending) id { c with state := ContextState.Ending } hl1
        obtain ⟨hsm, hsetm, hcntm⟩ := hnm (by simp)
        refine ⟨{ cm with state := ContextState.Ended, observers := none }, ?_, ?_, ?_, ?_⟩
        · rw [lookupW_update]
          simp [hcm]
        · simpa using hpm
        · intro hno
          exact absurd hsj hno
        · intro _
          refine Or.inr ⟨rfl, ?_, ?_⟩
          · simp [stateSetsFor_append, stateSetsFor_notifyAll, stateSetsFor_stateSet_self, hsetm]
          · intro k
            have h1 : childCount (updateCtx (endAll e (setStateW w id ContextState.Ending)
                (childrenOf (setStateW w id ContextState.Ending) id)).1 id
                (fun q => { q with state := ContextState.Ended, observers := none })) k id
                = childCount (endAll e (setStateW w id ContextState.Ending)
                    (childrenOf (setStateW w id ContextState.Ending) id)).1 k id :=
              childCount_update_same _ _ _ _ _ (fun _ => rfl)
            have h2 : childCount (setStateW w id ContextState.Ending) k id = childCount w k id := by
              unfold setStateW
              exact childCount_update_same _ _ _ _ _ (fun _ => rfl)
            rw [h1]
            exact Nat.le_trans (hcntm k) (Nat.le_of_eq h2)
      · have hl1 : lookupW (setStateW w j ContextState.Ending) id = some c := by
          unfold setStateW
          rw [lookupW_update]
          simp [hij, hl]
        obtain ⟨cm, hcm, hpm, hnm, ham⟩ :=
          endAll_ok e he (childrenOf (setStateW w j ContextState.Ending) j)
            (setStateW w j ContextState.Ending) id c hl1
        have hfin : lookupW (updateCtx (endAll e (setStateW w j ContextState.Ending)
            (childrenOf (setStateW w j ContextState.Ending) j)).1 j
            (fun q => { q with state := ContextState.Ended, observers := none })) id
            = some cm := by
          rw [lookupW_update]
          simp [hij, hcm]
        have hjid : ¬ j = id := fun h => hij h.symm
        have hsets : ∀ tr, stateSetsFor id
            ((Event.stateSet j ContextState.Ending
               :: notifyAll (snapshotObs cj) Method.contextEnding j)
              ++ tr
              ++ (Event.stateSet j ContextState.Ended
                   :: notifyAll (snapshotObs cj) Method.contextEnded j))
            = stateSetsFor id tr := by
          intro tr
          simp [stateSetsFor_append, stateSetsFor_notifyAll,
            stateSetsFor_stateSet_ne _ _ _ _ hjid]
        have hcnt1 : ∀ k, childCount (updateCtx (endAll e (setStateW w j ContextState.Ending)
            (childrenOf (setStateW w j ContextState.Ending) j)).1 j
            (fun q => { q with state := ContextState.Ended, observers := none })) k id
            = childCount (endAll e (setStateW w j ContextState.Ending)
                (childrenOf (setStateW w j ContextState.Ending) j)).1 k id :=
          fun k => childCount_update_same _ _ _ _ _ (fun _ => rfl)
        have hcnt2 : ∀ k, childCount (setStateW w j ContextState.Ending) k id
            = childCount w k id := by
          intro k
          unfold setStateW
          exact childCount_update_same _ _ _ _ _ (fun _ => rfl)
        refine ⟨cm, hfin, hpm, ?_, ?_⟩
        · intro hno
          obtain ⟨hsm, hsetm, hcntm⟩ := hnm hno
          exact ⟨hsm, by rw [hsets, hsetm], fun k =>
            by rw [hcnt1 k]; exact Nat.le_trans (hcntm k) (Nat.le_of_eq (hcnt2 k))⟩
        · intro hact
          rcases ham hact with ⟨hsm, hsetm, hcntm⟩ | ⟨hsm, hsetm, hcntm⟩
          · exact Or.inl ⟨hsm, by rw [hsets, hsetm], fun k =>
              by rw [hcnt1 k, hcntm k, hcnt2 k]⟩
          · exact Or.inr ⟨hsm, by rw [hsets, hsetm], fun k =>
              by rw [hcnt1 k]; exact Nat.le_trans (hcntm k) (Nat.le_of_eq (hcnt2 k))⟩
    · simp only [if_neg hsj]
      exact endStep_refl w id c hl

theorem baseEnd_fires (e : World → Nat → World × List Event) (he : EndOK e)
    (w : World) (j : Nat) (cj : Ctx) (hl : lookupW w j = some cj)
    (hs : cj.state = ContextState.Active) :
    ∃ c', lookupW (baseEndWith e w j).1 j = some c' ∧ c'.state = ContextState.Ended := by
  simp only [baseEndWith, hl, if_pos hs]
  have hl1 : lookupW (setStateW w j ContextState.Ending) j
      = some { cj with state := ContextState.Ending } := by
    unfold setStateW
    rw [lookupW_update]
    simp [hl]
  obtain ⟨cm, hcm, _, _, _⟩ :=
    endAll_ok e he (childrenOf (setStateW w j ContextState.Ending) j)
      (setStateW w j ContextState.Ending) j { cj with state := ContextState.Ending } hl1
  refine ⟨{ cm with state := ContextState.Ended, observers := none }, ?_, rfl⟩
  rw [lookupW_update]
  simp [hcm]

theorem childEnd_ok (e : World → Nat → World × List Event) (he : EndOK e) (pid : Nat) :
    EndOK (fun w j => childEndWith e w j pid) := by
  intro w j id c hl
  simp only [childEndWith]
  cases hp : lookupW w pid with
  | none => exact endStep_refl w id c hl
  | some p =>
    by_cases hm : j ∈ p.children
    · simp only [if_pos hm]
      have hchw : childrenOf w pid = p.children := by
        simp [childrenOf, hp]
      have hch1 : ∀ k, childrenOf (updateCtx w pid
          (fun q => { q with children := removeFirst q.children j })) k
          = if k = pid then removeFirst p.children j else childrenOf w k := by
        intro k
        rw [childrenOf_update]
        by_cases hk : k = pid
        · subst hk; simp [hp]
        · simp [hk]
      have hcntw1 : ∀ k, childCount (updateCtx w pid
          (fun q => { q with children := removeFirst q.children j })) k id
          ≤ childCount w k id := by
        intro k
        unfold childCount
        rw [hch1 k]
        by_cases hk : k = pid
        · subst hk
          rw [if_pos rfl, hchw]
          by_cases hij : id = j
          · subst hij
            rw [count_removeFirst_self]
            exact Nat.sub_le _ _
          · rw [count_removeFirst_ne _ _ _ hij]
        · simp [hk]
      have hcnteq : ¬ id = j → ∀ k, childCount (updateCtx w pid
          (fun q => { q with children := removeFirst q.children j })) k id
          = childCount w k id := by
        intro hij k
        unfold childCount
        rw [hch1 k]
        by_cases hk : k = pid
        · subst hk
          rw [if_pos rfl, hchw, count_removeFirst_ne _ _ _ hij]
        · simp [hk]
      have hc1 : ∃ c1, lookupW (updateCtx w pid
          (fun q => { q with children := removeFirst q.children j })) id = some c1 ∧
          c1.state = c.state ∧ c1.parent = c.parent := by
        by_cases hip : id = pid
        · subst hip
          have hcp : c = p := by rw [hl] at hp; cases hp; rfl
          subst hcp
          refine ⟨{ c with children := removeFirst c.children j }, ?_, rfl, rfl⟩
          rw [lookupW_update]
          simp [hl]
        · refine ⟨c, ?_, rfl, rfl⟩
          rw [lookupW_update]
          simp [hip, hl]
      obtain ⟨c1, hlc1, hs1, hp1⟩ := hc1
      obtain ⟨c2, hc2, hp2, hn2, ha2⟩ := baseEnd_ok e he (updateCtx w pid
        (fun q => { q with children := removeFirst q.children j })) j id c1 hlc1
      have hsets : ∀ (tr : List Event),
          stateSetsFor id (notifyAll (snapshotObs p) Method.childContextEnding j
            ++ tr ++ notifyAll (snapshotObs p) Method.childContextEnded j)
          = stateSetsFor id tr := by
        intro tr
        simp [stateSetsFor_append, stateSetsFor_notifyAll]
      refine ⟨c2, hc2, hp2.trans hp1, ?_, ?_⟩
      · intro hno
        obtain ⟨hA, hsetr, hcntr⟩ := hn2 (by rw [hs1]; exact hno)
        exact ⟨hA.trans hs1, by rw [hsets]; exact hsetr,
          fun k => Nat.le_trans (hcntr k) (hcntw1 k)⟩
      · intro hact
        by_cases hij : id = j
        · subst hij
          obtain ⟨cF, hcF, hsF⟩ := baseEnd_fires e he (updateCtx w pid
            (fun q => { q with children := removeFirst q.children id })) id c1 hlc1
            (by rw [hs1]; exact hact)
          have hceq : c2 = cF := by
            rw [hc2] at hcF
            cases hcF
            rfl
          rcases ha2 (by rw [hs1]; exact hact) with ⟨hA, _, _⟩ | ⟨hE, hsetr, hcntr⟩
          · rw [hceq, hsF] at hA
            exact absurd hA (by simp)
          · exact Or.inr ⟨hE, by rw [hsets]; exact hsetr,
              fun k => Nat.le_trans (hcntr k) (hcntw1 k)⟩
        · rcases ha2 (by rw [hs1]; exact hact) with ⟨hA, hsetr, hcntr⟩ | ⟨hE, hsetr, hcntr⟩
          · exact Or.inl ⟨hA, by rw [hsets]; exact hsetr,
              fun k => (hcntr k).trans (hcnteq hij k)⟩
          · exact Or.inr ⟨hE, by rw [hsets]; exact hsetr,
              fun k => Nat.le_trans (hcntr k) (hcntw1 k)⟩
    · simp only [if_neg hm]
      exact endStep_refl w id c hl

theorem endD_ok : ∀ f, EndOK (endD f) := by
  intro f
  induction f with
  | zero =>
    intro w j id c hl
    exact endStep_refl w id c hl
  | succ f ih =>
    intro w j id c hl
    simp only [endD]
    cases hj : lookupW w j with
    | none => exact endStep_refl w id c hl
    | some cj =>
      dsimp only
      cases hpar : cj.parent with
      | none => exact baseEnd_ok (endD f) ih w j id c hl
      | some pid => exact childEnd_ok (endD f) ih pid w j id c hl

theorem traverseVisit_greedy (w : World) (cb : Nat) (l : List Nat) (h : Bool) :
    traverseVisit w cb true l h = (h || l.any (fun n => baseHandles w n cb), l) := by
  induction l generalizing h with
  | nil => simp [traverseVisit]
  | cons n rest ih => simp [traverseVisit, ih, Bool.or_assoc]

theorem traverseVisit_nongreedy (w : World) (cb : Nat) (l : List Nat) :
    traverseVisit w cb false l false =
      (l.any (fun n => baseHandles w n cb),
       takeThrough (fun n => baseHandles w n cb) l) := by
  induction l with
  | nil => simp [traverseVisit, takeThrough]
  | cons n rest ih =>
    by_cases hb : baseHandles w n cb
    · simp [traverseVisit, takeThrough, hb]
    · simp [traverseVisit, takeThrough, hb, ih]

theorem handleCB_none_spec (an : Axis → Nat → List Nat) (f : Nat) (w : World)
    (id cb : Nat) (greedy : Bool) :
    handleCB an f w id none cb greedy =
      ((parentChain f w id).any (fun n => baseHandles w n cb),
       if greedy then parentChain f w id
       else takeThrough (fun n => baseHandles w n cb) (parentChain f w id)) := by
  induction f generalizing id with
  | zero => simp [handleCB, parentChain, takeThrough]
  | succ f ih =>
    cases hb : baseHandles w id cb <;> cases hg : greedy <;>
      cases hp : parentOf w id <;> subst hg <;>
        simp [handleCB, parentChain, takeThrough, hb, hp, ih]

/-- C5: `handle` with `greedy=false` returns true as soon as one handler along
the active axis handles the callback and stops querying further handlers — the
queried-node list is the chain/traversal cut at the first success; with
`greedy=true` every node of the chain (self plus ancestors) or of the axis
traversal is queried and the result is true iff at least one queried node's
base handling returned true. -/
theorem c5_handle_greedy (an : Axis → Nat → List Nat) (f : Nat) (w : World)
    (id cb : Nat) (greedy : Bool) :
    (handleCB an f w id none cb greedy =
      ((parentChain f w id).any (fun n => baseHandles w n cb),
       if greedy then parentChain f w id
       else takeThrough (fun n => baseHandles w n cb) (parentChain f w id))) ∧
    (∀ ax, ax ≠ Axis.Self →
      handleCB an (f + 1) w id (some ax) cb greedy =
        ((an ax id).any (fun n => baseHandles w n cb),
         if greedy then an ax id
         else takeThrough (fun n => baseHandles w n cb) (an ax id))) := by
  constructor
  · exact handleCB_none_spec an f w id cb greedy
  · intro ax hax
    cases hg : greedy
    · simp [handleCB, hax, traverseVisit_nongreedy]
    · simp [handleCB, hax, traverseVisit_greedy]

theorem c5_handle_greedy_witness :
    handleCB anPair 5 wPair 1 none 1 false =
      ((parentChain 5 wPair 1).any (fun n => baseHandles wPair n 1),
       takeThrough (fun n => baseHandles wPair n 1) (parentChain 5 wPair 1)) ∧
    handleCB anPair 6 wPair 1 (some Axis.Descendant) 1 false =
      ((anPair Axis.Descendant 1).any (fun n => baseHandles wPair n 1),
       takeThrough (fun n => baseHandles wPair n 1) (anPair Axis.Descendant 1)) := by
  have h := c5_handle_greedy anPair 5 wPair 1 1 false
  exact ⟨by simpa using h.1, by simpa using h.2 Axis.Descendant (by decide)⟩

/-- C6 counterexample: on the concrete two-context world `wPair` (root 0
handles callback 1, child 1 handles nothing), dispatching at the child with
pending axis `Self` differs from dispatching with no pending axis: the no-axis
case chains to the parent and succeeds, the `Self` case does not. -/
theorem c6_self_axis_counterexample :
    handleCB (fun _ _ => []) 5 wPair 1 (some Axis.Self) 1 false ≠
      handleCB (fun _ _ => []) 5 wPair 1 none 1 false := by decide

/-- C6 (amended): a pending `Self` axis tag makes `handleCallback` perform
exactly this context's one-shot base handling, querying only this node and
never chaining to the parent; it coincides with the no-axis dispatch only when
the no-axis case would not consult the parent — when the context has no parent,
or when its own base handling succeeds and the dispatch is not greedy. -/
theorem c6_self_axis_amended (an : Axis → Nat → List Nat) (f : Nat) (w : World)
    (id cb : Nat) (greedy : Bool) :
    handleCB an (f + 1) w id (some Axis.Self) cb greedy = (baseHandles w id cb, [id]) ∧
    (parentOf w id = none →
      handleCB an (f + 1) w id none cb greedy =
        handleCB an (f + 1) w id (some Axis.Self) cb greedy) ∧
    (baseHandles w id cb = true → greedy = false →
      handleCB an (f + 1) w id none cb greedy =
        handleCB an (f + 1) w id (some Axis.Self) cb greedy) := by
  refine ⟨by simp [handleCB], ?_, ?_⟩
  · intro hp
    cases hb : baseHandles w id cb <;> cases hg : greedy <;>
      simp [handleCB, hp, hb, hg]
  · intro hb hg
    simp [handleCB, hb, hg]

theorem c6_self_axis_amended_witness :
    handleCB (fun _ _ => []) 5 wPair 0 (some Axis.Self) 1 false =
      (baseHandles wPair 0 1, [0]) ∧
    handleCB (fun _ _ => []) 5 wPair 0 none 1 false =
      handleCB (fun _ _ => []) 5 wPair 0 (some Axis.Self) 1 false := by
  have h := c6_self_axis_amended (fun _ _ => []) 4 wPair 0 1 false
  exact ⟨h.1, h.2.2 (by decide) rfl⟩

/-- C7: `newChild` and `observe` on a context whose state is not Active raise
the IllegalState error ("The context has already ended."); as operations they
leave the world unchanged — no child is created and no observer is
registered. -/
theorem c7_illegal_state (w : World) (id : Nat) (c : Ctx)
    (hl : lookupW w id = some c) (hs : c.state ≠ ContextState.Active) :
    newChild w id = Except.error "The context has already ended." ∧
    (∀ obs, observe w id obs = Except.error "The context has already ended.") ∧
    stepOp w (Op.newChildOp id) = (w, []) ∧
    (∀ obs, stepOp w (Op.observeOp id obs) = (w, [])) := by
  have h1 : newChild w id = Except.error "The context has already ended." := by
    unfold newChild
    rw [hl]
    simp [hs]
  have h2 : ∀ obs, observe w id obs = Except.error "The context has already ended." := by
    intro obs
    unfold observe
    rw [hl]
    simp [hs]
  refine ⟨h1, h2, ?_, ?_⟩
  · simp [stepOp, h1]
  · intro obs
    simp [stepOp, h2 obs]

theorem c7_illegal_state_witness :
    newChild wEnded 0 = Except.error "The context has already ended." ∧
    observe wEnded 0 (some 5) = Except.error "The context has already ended." ∧
    stepOp wEnded (Op.newChildOp 0) = (wEnded, []) ∧
    stepOp wEnded (Op.observeOp 0 (some 5)) = (wEnded, []) := by
  have h := c7_illegal_state wEnded 0 (mkCtx .Ended none [] none []) (by decide) (by decide)
  exact ⟨h.1, h.2.1 (some 5), h.2.2.1, h.2.2.2 (some 5)⟩

/-- C9 counterexample: register observer 5 on the Active root of `wRoot`
(producing `wObs5`), end the context, then call the unsubscribe closure: it
raises a TypeError because `end()` nulled the observer list — contradicting
"calling it after the context has ended also does not raise". -/
theorem c9_unsubscribe_counterexample :
    observe wRoot 0 (some 5) = Except.ok (wObs5, true) ∧
    unsubscribe (endCtx wObs5 0).1 0 5 =
      Except.error "TypeError: cannot read indexOf of null" :=
  ⟨rfl, rfl⟩

/-- C9 (amended): the unsubscribe function never raises as long as the
context's observer list exists (in particular at any time before `end()` has
run): one call removes that observer's first registration, and a second call on
the same observer is a no-op that does not raise; but after `end()` has cleared
the observer list to null, calling unsubscribe raises a TypeError. -/
theorem c9_unsubscribe_amended (w : World) (id : Nat) (c : Ctx) (l : List Nat) (o : Nat)
    (hl : lookupW w id = some c) (ho : c.observers = some l) :
    (∃ w', unsubscribe w id o = Except.ok w' ∧
      lookupW w' id = some { c with observers := some (removeFirst l o) } ∧
      (l.count o ≤ 1 → unsubscribe w' id o = Except.ok w')) ∧
    (∀ w2 id2 c2 o2, lookupW w2 id2 = some c2 → c2.observers = none →
      unsubscribe w2 id2 o2 = Except.error "TypeError: cannot read indexOf of null") := by
  constructor
  · refine ⟨updateCtx w id (fun q => { q with observers := some (removeFirst l o) }), ?_, ?_, ?_⟩
    · simp only [unsubscribe, hl, ho]
    · rw [lookupW_update]
      simp [hl]
    · intro hcount
      have hl' : lookupW (updateCtx w id (fun q => { q with observers := some (removeFirst l o) })) id
          = some { c with observers := some (removeFirst l o) } := by
        rw [lookupW_update]
        simp [hl]
      have hnm : o ∉ removeFirst l o := by
        intro hm
        have hpos : 0 < (removeFirst l o).count o := List.count_pos_iff.mpr hm
        rw [count_removeFirst_self] at hpos
        omega
      have hrr : removeFirst (removeFirst l o) o = removeFirst l o :=
        removeFirst_of_not_mem _ _ hnm
      simp only [unsubscribe, hl', hrr]
      rw [updateCtx_id]
      intro c2 hc2
      rw [hl'] at hc2
      cases hc2
      rfl
  · intro w2 id2 c2 o2 hl2 ho2
    simp only [unsubscribe, hl2, ho2]

theorem c9_unsubscribe_amended_witness :
    (∃ w', unsubscribe wObs5 0 5 = Except.ok w' ∧
      lookupW w' 0 = some { mkCtx .Active none [] (some [5]) [] with
                             observers := some (removeFirst [5] 5) } ∧
      unsubscribe w' 0 5 = Except.ok w') ∧
    unsubscribe wEnded 0 9 = Except.error "TypeError: cannot read indexOf of null" := by
  have h := c9_unsubscribe_amended wObs5 0 (mkCtx .Active none [] (some [5]) []) [5] 5
    (by decide) rfl
  obtain ⟨⟨w', h1, h2, h3⟩, h4⟩ := h
  exact ⟨⟨w', h1, h2, h3 (by decide)⟩, h4 wEnded 0 (mkCtx .Ended none [] none []) 9 (by decide) rfl⟩

/-- C10: `store` never checks the lifecycle state and never raises: it returns
the receiving context, registers the object exactly when it is something
(not null/undefined), and behaves identically whatever the context's state —
changing the state commutes with `store`. -/
theorem c10_store_ignores_state (w : World) (id : Nat) (c : Ctx) (obj : Option Nat)
    (hl : lookupW w id = some c) :
    (store w id obj).2 = id ∧
    (obj = none → store w id obj = (w, id)) ∧
    (∀ o, obj = some o →
      store w id obj =
        (updateCtx w id (fun q => { q with stored := q.stored ++ [o] }), id)) ∧
    (∀ s, store (setStateW w id s) id obj =
      (setStateW (store w id obj).1 id s, id)) := by
  have hset : ∀ s, lookupW (setStateW w id s) id = some { c with state := s } := by
    intro s
    unfold setStateW
    rw [lookupW_update]
    simp [hl]
  refine ⟨?_, ?_, ?_, ?_⟩
  · cases obj <;> simp [store, hl]
  · intro h
    subst h
    simp [store, hl]
  · intro o h
    subst h
    simp [store, hl]
  · intro s
    unfold setStateW
    have hset2 : lookupW (updateCtx w id (fun q => { q with state := s })) id
        = some { c with state := s } := by
      rw [lookupW_update]
      simp [hl]
    cases obj with
    | none => simp [store, hl, hset2]
    | some o => simp only [store, hl, hset2, updateCtx_updateCtx]

theorem c10_store_ignores_state_witness :
    (store wEnded 0 (some 3)).2 = 0 ∧
    store wEnded 0 (some 3) =
      (updateCtx wEnded 0 (fun q => { q with stored := q.stored ++ [3] }), 0) ∧
    store (setStateW wEnded 0 ContextState.Ending) 0 (some 3) =
      (setStateW (store wEnded 0 (some 3)).1 0 ContextState.Ending, 0) := by
  have h := c10_store_ignores_state wEnded 0 (mkCtx .Ended none [] none []) (some 3) (by decide)
  exact ⟨h.1, h.2.2.1 3 rfl, h.2.2.2 ContextState.Ending⟩

/-- C3: `newChild()` on an Active parent returns a fresh Active context whose
`parent` is the caller and which has been appended at the end of the caller's
`children` (insertion order equals creation order), so it is present in
`children` immediately after the call. -/
theorem c3_newChild_appends (w : World) (pid : Nat) (p : Ctx)
    (hw : WFIds w) (hl : lookupW w pid = some p) (hs : p.state = ContextState.Active) :
    ∃ w', newChild w pid = Except.ok (w', w.nextId) ∧
      lookupW w' w.nextId =
        some { state := ContextState.Active, parent := some pid, children := [],
               observers := none, handles := [], stored := [] } ∧
      childrenOf w' pid = p.children ++ [w.nextId] ∧
      w.nextId ∈ childrenOf w' pid := by
  have hpid : pid < w.nextId := hw.lt hl
  have hne : ¬ w.nextId = pid := by omega
  have hlA : lookupA w.ctxs pid = some p := hl
  have hup : lookupA (updateCtx w pid
        (fun q => { q with children := q.children ++ [w.nextId] })).ctxs pid
      = some { p with children := p.children ++ [w.nextId] } := by
    have h2 := lookupW_update w pid (fun q => { q with children := q.children ++ [w.nextId] }) pid
    unfold lookupW at h2
    rw [h2, if_pos rfl, hlA]
    rfl
  refine ⟨{ ctxs := (w.nextId,
              { state := ContextState.Active, parent := some pid, children := [],
                observers := none, handles := [], stored := [] })
              :: (updateCtx w pid (fun q => { q with children := q.children ++ [w.nextId] })).ctxs,
            nextId := w.nextId + 1 }, ?_, ?_, ?_, ?_⟩
  · simp only [newChild, hl, hs, if_pos]
  · unfold lookupW lookupA
    simp
  · unfold childrenOf lookupW
    simp only [lookupA, if_neg hne, hup]
    rfl
  · unfold childrenOf lookupW
    simp only [lookupA, if_neg hne, hup]
    simp

theorem c3_newChild_appends_witness :
    ∃ w', newChild wRoot 0 = Except.ok (w', wRoot.nextId) ∧
      lookupW w' wRoot.nextId =
        some { state := ContextState.Active, parent := some 0, children := [],
               observers := none, handles := [], stored := [] } ∧
      childrenOf w' 0 = (mkCtx .Active none [] none []).children ++ [wRoot.nextId] ∧
      wRoot.nextId ∈ childrenOf w' 0 :=
  c3_newChild_appends wRoot 0 (mkCtx .Active none [] none []) (by decide) (by decide) (by decide)

theorem endD_fires (f : Nat) (w : World) (j : Nat) (cj : Ctx)
    (hl : lookupW w j = some cj) (hs : cj.state = ContextState.Active)
    (hp : cj.parent = none ∨
      ∃ pid p, cj.parent = some pid ∧ lookupW w pid = some p ∧ j ∈ p.children) :
    ∃ c', lookupW (endD (f + 1) w j).1 j = some c' ∧ c'.state = ContextState.Ended ∧
      c'.parent = cj.parent ∧
      stateSetsFor j (endD (f + 1) w j).2 = [ContextState.Ending, ContextState.Ended] := by
  have hEnd : ∃ c', lookupW (endD (f + 1) w j).1 j = some c'
      ∧ c'.state = ContextState.Ended := by
    simp only [endD, hl]
    rcases hp with hnone | ⟨pid, p, hpar, hlp, hmem⟩
    · rw [hnone]
      exact baseEnd_fires (endD f) (endD_ok f) w j cj hl hs
    · rw [hpar]
      dsimp only
      simp only [childEndWith, hlp, if_pos hmem]
      have hc1 : ∃ c1, lookupW (updateCtx w pid
          (fun q => { q with children := removeFirst q.children j })) j = some c1 ∧
          c1.state = ContextState.Active := by
        rw [lookupW_update]
        by_cases hjp : j = pid
        · subst hjp
          have hcp : cj = p := by rw [hl] at hlp; cases hlp; rfl
          rw [if_pos rfl, hlp]
          exact ⟨_, rfl, by rw [← hcp]; exact hs⟩
        · rw [if_neg hjp]
          exact ⟨cj, hl, hs⟩
      obtain ⟨c1, hlc1, hsc1⟩ := hc1
      exact baseEnd_fires (endD f) (endD_ok f) _ j c1 hlc1 hsc1
  obtain ⟨cF, hcF, hsF⟩ := hEnd
  obtain ⟨c2, hc2, hp2, hn2, ha2⟩ := endD_ok (f + 1) w j j cj hl
  have hceq : c2 = cF := by
    rw [hc2] at hcF
    cases hcF
    rfl
  rcases ha2 hs with ⟨hA, _, _⟩ | ⟨hE, hsetr, _⟩
  · rw [hceq, hsF] at hA
    exact absurd hA (by simp)
  · exact ⟨c2, hc2, hE, hp2, hsetr⟩

theorem keys_updateA (l : List (Nat × Ctx)) (i : Nat) (f : Ctx → Ctx) :
    (updateA l i f).map Prod.fst = l.map Prod.fst := by
  induction l with
  | nil => rfl
  | cons p l ih =>
    by_cases hp : p.1 = i
    · simp [updateA, hp]
    · simp [updateA, hp, ih]

theorem lookupA_eq_none (l : List (Nat × Ctx)) (id : Nat) :
    lookupA l id = none ↔ id ∉ l.map Prod.fst := by
  induction l with
  | nil => simp [lookupA]
  | cons p l ih =>
    by_cases hp : p.1 = id
    · simp [lookupA, hp]
    · have hip : ¬ id = p.1 := fun h => hp h.symm
      simp [lookupA, hp, hip, ih]

theorem WFIds_of_keys (w w2 : World) (hk : w2.ctxs.map Prod.fst = w.ctxs.map Prod.fst)
    (hn : w2.nextId = w.nextId) (hw : WFIds w) : WFIds w2 := by
  intro p hp
  have hmem : p.1 ∈ w2.ctxs.map Prod.fst := List.mem_map_of_mem _ hp
  rw [hk] at hmem
  obtain ⟨q, hq, hqe⟩ := List.mem_map.mp hmem
  rw [hn, ← hqe]
  exact hw q hq

theorem endAll_pres (e : World → Nat → World × List Event) (hp : EndPres e) :
    ∀ (l : List Nat) (w : World), (endAll e w l).1.nextId = w.nextId ∧
      (endAll e w l).1.ctxs.map Prod.fst = w.ctxs.map Prod.fst ∧
      ∀ id, lookupW w id = none → stateSetsFor id (endAll e w l).2 = [] := by
  intro l
  induction l with
  | nil => intro w; exact ⟨rfl, rfl, fun id _ => rfl⟩
  | cons y rest ih =>
    intro w
    simp only [endAll]
    obtain ⟨hn1, hk1, hs1⟩ := hp w y
    obtain ⟨hn2, hk2, hs2⟩ := ih (e w y).1
    refine ⟨hn2.trans hn1, hk2.trans hk1, fun id hid => ?_⟩
    have hid1 : lookupW (e w y).1 id = none := by
      unfold lookupW
      rw [lookupA_eq_none, hk1, ← lookupA_eq_none]
      exact hid
    rw [stateSetsFor_append, hs1 id hid, hs2 id hid1]
    rfl

theorem baseEnd_pres (e : World → Nat → World × List Event) (hp : EndPres e) :
    EndPres (fun w j => baseEndWith e w j) := by
  intro w j
  simp only [baseEndWith]
  cases hj : lookupW w j with
  | none => exact ⟨rfl, rfl, fun id _ => rfl⟩
  | some cj =>
    by_cases hsj : cj.state = ContextState.Active
    · simp only [if_pos hsj]
      obtain ⟨hn1, hk1, hs1⟩ := endAll_pres e hp
        (childrenOf (setStateW w j ContextState.Ending) j) (setStateW w j ContextState.Ending)
      refine ⟨?_, ?_, ?_⟩
      · exact hn1
      · unfold updateCtx
        rw [keys_updateA, hk1]
        unfold setStateW updateCtx
        rw [keys_updateA]
      · intro id hid
        have hjid : ¬ j = id := by
          intro h
          rw [h, hid] at hj
          cases hj
        have hid1 : lookupW (setStateW w j ContextState.Ending) id = none := by
          unfold setStateW
          rw [lookupW_update, if_neg (fun h => hjid h.symm)]
          exact hid
        rw [stateSetsFor_append, stateSetsFor_append,
          stateSetsFor_stateSet_ne _ _ _ _ hjid, stateSetsFor_notifyAll,
          stateSetsFor_stateSet_ne _ _ _ _ hjid, stateSetsFor_notifyAll, hs1 id hid1]
        rfl
    · simp [if_neg hsj, stateSetsFor]

theorem childEnd_pres (e : World → Nat → World × List Event) (hp : EndPres e) (pid : Nat) :
    EndPres (fun w j => childEndWith e w j pid) := by
  intro w j
  simp only [childEndWith]
  cases hpl : lookupW w pid with
  | none => exact ⟨rfl, rfl, fun id _ => rfl⟩
  | some p =>
    by_cases hm : j ∈ p.children
    · simp only [if_pos hm]
      obtain ⟨hn1, hk1, hs1⟩ := baseEnd_pres e hp
        (updateCtx w pid (fun q => { q with children := removeFirst q.children j })) j
      refine ⟨hn1, ?_, ?_⟩
      · rw [hk1]
        unfold updateCtx
        rw [keys_updateA]
      · intro id hid
        have hpid : ¬ id = pid := by
          intro h
          rw [h, hpl] at hid
          cases hid
        have hid1 : lookupW (updateCtx w pid
            (fun q => { q with children := removeFirst q.children j })) id = none := by
          rw [lookupW_update, if_neg hpid]
          exact hid
        rw [stateSetsFor_append, stateSetsFor_append, stateSetsFor_notifyAll,
          stateSetsFor_notifyAll, hs1 id hid1]
        rfl
    · simp [if_neg hm, stateSetsFor]

theorem endD_pres : ∀ f, EndPres (endD f) := by
  intro f
  induction f with
  | zero => intro w j; exact ⟨rfl, rfl, fun id _ => rfl⟩
  | succ f ih =>
    intro w j
    simp only [endD]
    cases hj : lookupW w j with
    | none => exact ⟨rfl, rfl, fun id _ => rfl⟩
    | some cj =>
      dsimp only
      cases hpar : cj.parent with
      | none => exact baseEnd_pres (endD f) ih w j
      | some pid => exact childEnd_pres (endD f) ih pid w j

theorem newChild_ok_inv (w : World) (pid : Nat) (r : World × Nat)
    (h : newChild w pid = Except.ok r) :
    ∃ p, lookupW w pid = some p ∧ p.state = ContextState.Active ∧
      r = ({ ctxs := (w.nextId,
               { state := ContextState.Active, parent := some pid, children := [],
                 observers := none, handles := [], stored := [] })
               :: (updateCtx w pid
                     (fun q => { q with children := q.children ++ [w.nextId] })).ctxs,
             nextId := w.nextId + 1 }, w.nextId) := by
  unfold newChild at h
  cases hp : lookupW w pid with
  | none =>
    rw [hp] at h
    exact Except.noConfusion h
  | some p =>
    rw [hp] at h
    dsimp only at h
    by_cases hs : p.state = ContextState.Active
    · rw [if_pos hs] at h
      cases h
      exact ⟨p, rfl, hs, rfl⟩
    · rw [if_neg hs] at h
      exact Except.noConfusion h

theorem observe_ok_inv (w : World) (id : Nat) (obs : Option Nat) (r : World × Bool)
    (h : observe w id obs = Except.ok r) :
    r.1 = w ∨
    ∃ o, obs = some o ∧
      r.1 = updateCtx w id
        (fun q => { q with observers := some ((q.observers.getD []) ++ [o]) }) := by
  unfold observe at h
  cases hl : lookupW w id with
  | none =>
    rw [hl] at h
    exact Except.noConfusion h
  | some c =>
    rw [hl] at h
    dsimp only at h
    by_cases hs : c.state = ContextState.Active
    · rw [if_pos hs] at h
      cases obs with
      | none =>
        cases h
        exact Or.inl rfl
      | some o =>
        cases h
        exact Or.inr ⟨o, rfl, rfl⟩
    · rw [if_neg hs] at h
      exact Except.noConfusion h

theorem unsub_ok_inv (w : World) (id o : Nat) (w2 : World)
    (h : unsubscribe w id o = Except.ok w2) :
    ∃ c l, lookupW w id = some c ∧ c.observers = some l ∧
      w2 = updateCtx w id (fun q => { q with observers := some (removeFirst l o) }) := by
  unfold unsubscribe at h
  cases hl : lookupW w id with
  | none =>
    rw [hl] at h
    exact Except.noConfusion h
  | some c =>
    rw [hl] at h
    dsimp only at h
    cases ho : c.observers with
    | none =>
      rw [ho] at h
      exact Except.noConfusion h
    | some l =>
      rw [ho] at h
      dsimp only at h
      cases h
      exact ⟨c, l, rfl, ho, rfl⟩

theorem store_world (w : World) (id : Nat) (obj : Option Nat) :
    (store w id obj).1 = w ∨
    ∃ o, (store w id obj).1
      = updateCtx w id (fun q => { q with stored := q.stored ++ [o] }) := by
  unfold store
  cases hl : lookupW w id with
  | none => exact Or.inl rfl
  | some c =>
    cases obj with
    | none => exact Or.inl rfl
    | some o => exact Or.inr ⟨o, rfl⟩

theorem stepFacts_update (w : World) (j : Nat) (f : Ctx → Ctx)
    (hstate : ∀ c, (f c).state = c.state) (hw : WFIds w) :
    WFIds (updateCtx w j f) ∧
    (∀ id c, lookupW w id = some c →
      ∃ c', lookupW (updateCtx w j f) id = some c' ∧ c'.state = c.state) ∧
    (∀ id, lookupW w id = none → lookupW (updateCtx w j f) id = none) := by
  refine ⟨?_, ?_, ?_⟩
  · refine WFIds_of_keys w (updateCtx w j f) ?_ rfl hw
    unfold updateCtx
    exact keys_updateA w.ctxs j f
  · intro id c hl
    rw [lookupW_update]
    by_cases hij : id = j
    · subst hij
      rw [if_pos rfl, hl]
      exact ⟨f c, rfl, hstate c⟩
    · rw [if_neg hij]
      exact ⟨c, hl, rfl⟩
  · intro id hid
    rw [lookupW_update]
    by_cases hij : id = j
    · subst hij
      rw [if_pos rfl, hid]
      rfl
    · rw [if_neg hij]
      exact hid

theorem stepFacts_end (w : World) (r : World × List Event)
    (hok : ∀ id c, lookupW w id = some c → EndStep w id c r)
    (hnx : r.1.nextId = w.nextId)
    (hkeys : r.1.ctxs.map Prod.fst = w.ctxs.map Prod.fst)
    (hnone : ∀ id, lookupW w id = none → stateSetsFor id r.2 = [])
    (hw : WFIds w) :
    WFIds r.1 ∧
    (∀ id c, lookupW w id = some c →
      ∃ c', lookupW r.1 id = some c' ∧
        (c.state ≠ ContextState.Active →
          c'.state = c.state ∧ stateSetsFor id r.2 = []) ∧
        (c.state = ContextState.Active →
          (c'.state = ContextState.Active ∧ stateSetsFor id r.2 = []) ∨
          (c'.state = ContextState.Ended ∧
            stateSetsFor id r.2 = [ContextState.Ending, ContextState.Ended]))) ∧
    (∀ id, lookupW w id = none →
      (lookupW r.1 id = none ∨
        ∃ c', lookupW r.1 id = some c' ∧ c'.state = ContextState.Active) ∧
      stateSetsFor id r.2 = []) := by
  refine ⟨WFIds_of_keys w r.1 hkeys hnx hw, ?_, ?_⟩
  · intro id c hl
    obtain ⟨c', hc', _, hn, ha⟩ := hok id c hl
    refine ⟨c', hc', ?_, ?_⟩
    · intro h
      obtain ⟨h1, h2, _⟩ := hn h
      exact ⟨h1, h2⟩
    · intro h
      rcases ha h with ⟨h1, h2, _⟩ | ⟨h1, h2, _⟩
      · exact Or.inl ⟨h1, h2⟩
      · exact Or.inr ⟨h1, h2⟩
  · intro id hid
    refine ⟨Or.inl ?_, hnone id hid⟩
    unfold lookupW
    rw [lookupA_eq_none, hkeys, ← lookupA_eq_none]
    exact hid

theorem stepFacts_nochange (w : World) (hw : WFIds w) :
    WFIds w ∧
    (∀ id c, lookupW w id = some c →
      ∃ c', lookupW w id = some c' ∧
        (c.state ≠ ContextState.Active →
          c'.state = c.state ∧ stateSetsFor id ([] : List Event) = []) ∧
        (c.state = ContextState.Active →
          (c'.state = ContextState.Active ∧ stateSetsFor id ([] : List Event) = []) ∨
          (c'.state = ContextState.Ended ∧
            stateSetsFor id ([] : List Event) = [ContextState.Ending, ContextState.Ended]))) ∧
    (∀ id, lookupW w id = none →
      (lookupW w id = none ∨ ∃ c', lookupW w id = some c' ∧ c'.state = ContextState.Active) ∧
      stateSetsFor id ([] : List Event) = []) :=
  ⟨hw, fun id c hl => ⟨c, hl, fun _ => ⟨rfl, rfl⟩, fun h => Or.inl ⟨h, rfl⟩⟩,
    fun id hid => ⟨Or.inl hid, rfl⟩⟩

theorem stepFacts_upd (w : World) (j : Nat) (f : Ctx → Ctx)
    (hstate : ∀ c, (f c).state = c.state) (hw : WFIds w) :
    WFIds (updateCtx w j f) ∧
    (∀ id c, lookupW w id = some c →
      ∃ c', lookupW (updateCtx w j f) id = some c' ∧
        (c.state ≠ ContextState.Active →
          c'.state = c.state ∧ stateSetsFor id ([] : List Event) = []) ∧
        (c.state = ContextState.Active →
          (c'.state = ContextState.Active ∧ stateSetsFor id ([] : List Event) = []) ∨
          (c'.state = ContextState.Ended ∧
            stateSetsFor id ([] : List Event) = [ContextState.Ending, ContextState.Ended]))) ∧
    (∀ id, lookupW w id = none →
      (lookupW (updateCtx w j f) id = none ∨
        ∃ c', lookupW (updateCtx w j f) id = some c' ∧ c'.state = ContextState.Active) ∧
      stateSetsFor id ([] : List Event) = []) := by
  obtain ⟨hW, hsome, hnone⟩ := stepFacts_update w j f hstate hw
  refine ⟨hW, ?_, ?_⟩
  · intro id c hl
    obtain ⟨c', hc', hs⟩ := hsome id c hl
    exact ⟨c', hc', fun _ => ⟨hs, rfl⟩, fun h => Or.inl ⟨by rw [hs]; exact h, rfl⟩⟩
  · intro id hid
    exact ⟨Or.inl (hnone id hid), rfl⟩

theorem stepOp_ok (w : World) (op : Op) (hw : WFIds w) :
    WFIds (stepOp w op).1 ∧
    (∀ id c, lookupW w id = some c →
      ∃ c', lookupW (stepOp w op).1 id = some c' ∧
        (c.state ≠ ContextState.Active →
          c'.state = c.state ∧ stateSetsFor id (stepOp w op).2 = []) ∧
        (c.state = ContextState.Active →
          (c'.state = ContextState.Active ∧ stateSetsFor id (stepOp w op).2 = []) ∨
          (c'.state = ContextState.Ended ∧
            stateSetsFor id (stepOp w op).2 = [ContextState.Ending, ContextState.Ended]))) ∧
    (∀ id, lookupW w id = none →
      (lookupW (stepOp w op).1 id = none ∨
        ∃ c', lookupW (stepOp w op).1 id = some c' ∧ c'.state = ContextState.Active) ∧
      stateSetsFor id (stepOp w op).2 = []) := by
  cases op with
  | endOp j =>
    simp only [stepOp, endCtx]
    exact stepFacts_end w (endD (defaultFuel w) w j)
      (fun id c hl => endD_ok (defaultFuel w) w j id c hl)
      ((endD_pres (defaultFuel w)) w j).1 ((endD_pres (defaultFuel w)) w j).2.1
      ((endD_pres (defaultFuel w)) w j).2.2 hw
  | unwindOp j =>
    simp only [stepOp, unwindCtx, unwindD]
    exact stepFacts_end w (endAll (endD (defaultFuel w)) w (childrenOf w j))
      (fun id c hl => endAll_ok (endD (defaultFuel w)) (endD_ok (defaultFuel w))
        (childrenOf w j) w id c hl)
      (endAll_pres (endD (defaultFuel w)) (endD_pres (defaultFuel w)) (childrenOf w j) w).1
      (endAll_pres (endD (defaultFuel w)) (endD_pres (defaultFuel w)) (childrenOf w j) w).2.1
      (endAll_pres (endD (defaultFuel w)) (endD_pres (defaultFuel w)) (childrenOf w j) w).2.2 hw
  | unwindRootOp j =>
    simp only [stepOp, unwindCtx, unwindD]
    exact stepFacts_end w
      (endAll (endD (defaultFuel w)) w (childrenOf w (rootOf (defaultFuel w) w j)))
      (fun id c hl => endAll_ok (endD (defaultFuel w)) (endD_ok (defaultFuel w))
        (childrenOf w (rootOf (defaultFuel w) w j)) w id c hl)
      (endAll_pres (endD (defaultFuel w)) (endD_pres (defaultFuel w))
        (childrenOf w (rootOf (defaultFuel w) w j)) w).1
      (endAll_pres (endD (defaultFuel w)) (endD_pres (defaultFuel w))
        (childrenOf w (rootOf (defaultFuel w) w j)) w).2.1
      (endAll_pres (endD (defaultFuel w)) (endD_pres (defaultFuel w))
        (childrenOf w (rootOf (defaultFuel w) w j)) w).2.2 hw
  | observeOp j obs =>
    cases hob : observe w j obs with
    | error msg =>
      simp only [stepOp, hob]
      exact stepFacts_nochange w hw
    | ok r =>
      simp only [stepOp, hob]
      rcases observe_ok_inv w j obs r hob with hrw | ⟨o, _, hrw⟩
      · rw [hrw]
        exact stepFacts_nochange w hw
      · rw [hrw]
        exact stepFacts_upd w j
          (fun q => { q with observers := some ((q.observers.getD []) ++ [o]) })
          (fun _ => rfl) hw
  | unsubOp j o =>
    cases hub : unsubscribe w j o with
    | error msg =>
      simp only [stepOp, hub]
      exact stepFacts_nochange w hw
    | ok w2 =>
      simp only [stepOp, hub]
      obtain ⟨c, l, _, _, hrw⟩ := unsub_ok_inv w j o w2 hub
      rw [hrw]
      exact stepFacts_upd w j
        (fun q => { q with observers := some (removeFirst l o) })
        (fun _ => rfl) hw
  | storeOp j obj =>
    simp only [stepOp]
    rcases store_world w j obj with hrw | ⟨o, hrw⟩
    · rw [hrw]
      exact stepFacts_nochange w hw
    · rw [hrw]
      exact stepFacts_upd w j
        (fun q => { q with stored := q.stored ++ [o] })
        (fun _ => rfl) hw
  | newChildOp pid =>
    cases hnc : newChild w pid with
    | error msg =>
      simp only [stepOp, hnc]
      exact stepFacts_nochange w hw
    | ok r =>
      simp only [stepOp, hnc]
      obtain ⟨p, hp, hps, hr⟩ := newChild_ok_inv w pid r hnc
      rw [hr]
      dsimp only
      refine ⟨?_, ?_, ?_⟩
      · intro q hq
        rcases List.mem_cons.mp hq with h1 | h2
        · rw [h1]
          dsimp only
          omega
        · have hmem : q.1 ∈ (updateCtx w pid
              (fun q2 => { q2 with children := q2.children ++ [w.nextId] })).ctxs.map Prod.fst :=
            List.mem_map_of_mem _ h2
          have hke : (updateCtx w pid
              (fun q2 => { q2 with children := q2.children ++ [w.nextId] })).ctxs.map Prod.fst
              = w.ctxs.map Prod.fst := keys_updateA _ _ _
          rw [hke] at hmem
          obtain ⟨q2, hq2, hqe⟩ := List.mem_map.mp hmem
          have hq2lt := hw q2 hq2
          dsimp only
          omega
      · intro id c hl
        have hlt : id < w.nextId := hw.lt hl
        have hne : ¬ w.nextId = id := by omega
        have hlA : lookupA w.ctxs id = some c := hl
        by_cases hip : id = pid
        · subst hip
          have hcp : c = p := by
            rw [hl] at hp
            cases hp
            rfl
          subst hcp
          refine ⟨{ c with children := c.children ++ [w.nextId] }, ?_,
            fun _ => ⟨rfl, rfl⟩, fun h => Or.inl ⟨h, rfl⟩⟩
          show lookupA _ id = _
          rw [lookupA]
          rw [if_neg hne]
          simp only [updateCtx]
          have h2 := lookupA_update w.ctxs id
            (fun q2 => { q2 with children := q2.children ++ [w.nextId] }) id
          rw [h2, if_pos rfl, hlA]
          rfl
        · refine ⟨c, ?_, fun _ => ⟨rfl, rfl⟩, fun h => Or.inl ⟨h, rfl⟩⟩
          show lookupA _ id = _
          rw [lookupA]
          rw [if_neg hne]
          simp only [updateCtx]
          have h2 := lookupA_update w.ctxs pid
            (fun q2 => { q2 with children := q2.children ++ [w.nextId] }) id
          rw [h2, if_neg hip]
          exact hlA
      · intro id hid
        refine ⟨?_, rfl⟩
        by_cases hic : w.nextId = id
        · refine Or.inr ⟨mkCtx ContextState.Active (some pid) [] none [], ?_, rfl⟩
          show lookupA _ id = _
          rw [lookupA, if_pos hic]
          rfl
        · refine Or.inl ?_
          show lookupA _ id = _
          rw [lookupA, if_neg hic]
          simp only [updateCtx]
          have hip : ¬ id = pid := by
            intro h
            rw [h, hp] at hid
            cases hid
          have h2 := lookupA_update w.ctxs pid
            (fun q2 => { q2 with children := q2.children ++ [w.nextId] }) id
          rw [h2, if_neg hip]
          exact hid

theorem runOps_ok : ∀ (ops : List Op) (w : World), WFIds w →
    WFIds (runOps w ops).1 ∧
    (∀ id c, lookupW w id = some c →
      ∃ c', lookupW (runOps w ops).1 id = some c' ∧
        (c.state ≠ ContextState.Active →
          c'.state = c.state ∧ stateSetsFor id (runOps w ops).2 = []) ∧
        (c.state = ContextState.Active →
          (c'.state = ContextState.Active ∧ stateSetsFor id (runOps w ops).2 = []) ∨
          (c'.state = ContextState.Ended ∧
            stateSetsFor id (runOps w ops).2 = [ContextState.Ending, ContextState.Ended]))) ∧
    (∀ id, lookupW w id = none →
      stateSetsFor id (runOps w ops).2 = [] ∨
      stateSetsFor id (runOps w ops).2 = [ContextState.Ending, ContextState.Ended]) := by
  intro ops
  induction ops with
  | nil =>
    intro w hw
    exact ⟨hw, fun id c hl => ⟨c, hl, fun _ => ⟨rfl, rfl⟩, fun h => Or.inl ⟨h, rfl⟩⟩,
      fun id _ => Or.inl rfl⟩
  | cons op rest ih =>
    intro w hw
    simp only [runOps]
    obtain ⟨hW1, hsome1, hnone1⟩ := stepOp_ok w op hw
    obtain ⟨hW2, hsome2, hnone2⟩ := ih (stepOp w op).1 hW1
    refine ⟨hW2, ?_, ?_⟩
    · intro id c hl
      obtain ⟨c1, hc1, hn1, ha1⟩ := hsome1 id c hl
      obtain ⟨c2, hc2, hn2, ha2⟩ := hsome2 id c1 hc1
      refine ⟨c2, hc2, ?_, ?_⟩
      · intro h
        obtain ⟨hs1, hset1⟩ := hn1 h
        obtain ⟨hs2, hset2⟩ := hn2 (by rw [hs1]; exact h)
        exact ⟨hs2.trans hs1, by rw [stateSetsFor_append, hset1, hset2]; rfl⟩
      · intro h
        rcases ha1 h with ⟨hs1, hset1⟩ | ⟨hs1, hset1⟩
        · rcases ha2 hs1 with ⟨hs2, hset2⟩ | ⟨hs2, hset2⟩
          · exact Or.inl ⟨hs2, by rw [stateSetsFor_append, hset1, hset2]; rfl⟩
          · exact Or.inr ⟨hs2, by rw [stateSetsFor_append, hset1, hset2]; rfl⟩
        · obtain ⟨hs2, hset2⟩ := hn2 (by rw [hs1]; simp)
          exact Or.inr ⟨hs2.trans hs1, by rw [stateSetsFor_append, hset1, hset2]; simp⟩
    · intro id hid
      rcases hnone1 id hid with ⟨hl1 | ⟨c1, hc1, hs1⟩, hset1⟩
      · rcases hnone2 id hl1 with h | h
        · exact Or.inl (by rw [stateSetsFor_append, hset1, h]; rfl)
        · exact Or.inr (by rw [stateSetsFor_append, hset1, h]; rfl)
      · obtain ⟨c2, hc2, hn2, ha2⟩ := hsome2 id c1 hc1
        rcases ha2 hs1 with ⟨_, hset2⟩ | ⟨_, hset2⟩
        · exact Or.inl (by rw [stateSetsFor_append, hset1, hset2]; rfl)
        · exact Or.inr (by rw [stateSetsFor_append, hset1, hset2]; rfl)

/-- C2: over every sequence of API operations, a context's state field only
moves forward along Active → Ending → Ended: the final state of any surviving
context is at least its initial state in the lifecycle order, and the complete
list of `_state` assignments any context ever receives is either empty or
exactly [Ending, Ended] — so the state never returns to an earlier value and
never reaches Ended without first being Ending. -/
theorem c2_state_monotonic (w : World) (ops : List Op) (id : Nat) (hw : WFIds w) :
    (∀ c, lookupW w id = some c →
      ∃ c', lookupW (runOps w ops).1 id = some c' ∧ stateLe c.state c'.state) ∧
    (stateSetsFor id (runOps w ops).2 = [] ∨
      stateSetsFor id (runOps w ops).2 = [ContextState.Ending, ContextState.Ended]) := by
  obtain ⟨_, hsome, hnone⟩ := runOps_ok ops w hw
  constructor
  · intro c hl
    obtain ⟨c', hc', hn, ha⟩ := hsome id c hl
    by_cases h : c.state = ContextState.Active
    · rcases ha h with ⟨hs, _⟩ | ⟨hs, _⟩
      · exact ⟨c', hc', by rw [hs, h]; decide⟩
      · exact ⟨c', hc', by rw [hs, h]; decide⟩
    · obtain ⟨hs, _⟩ := hn h
      exact ⟨c', hc', by rw [hs]; exact Nat.le_refl _⟩
  · cases hl : lookupW w id with
    | none => exact hnone id hl
    | some c =>
      obtain ⟨c', hc', hn, ha⟩ := hsome id c hl
      by_cases h : c.state = ContextState.Active
      · rcases ha h with ⟨_, hset⟩ | ⟨_, hset⟩
        · exact Or.inl hset
        · exact Or.inr hset
      · exact Or.inl (hn h).2

theorem c2_state_monotonic_witness :
    (∃ c', lookupW (runOps wFam [Op.endOp 0]).1 1 = some c' ∧
      stateLe ContextState.Active c'.state) ∧
    (stateSetsFor 1 (runOps wFam [Op.endOp 0]).2 = [] ∨
      stateSetsFor 1 (runOps wFam [Op.endOp 0]).2 = [ContextState.Ending, ContextState.Ended]) := by
  have h := c2_state_monotonic wFam [Op.endOp 0] 1 (by decide)
  exact ⟨h.1 (mkCtx .Active (some 0) [] none []) (by decide), h.2⟩

theorem childCount_pos (w : World) (pid x : Nat) (h : 1 ≤ childCount w pid x) :
    ∃ p, lookupW w pid = some p ∧ x ∈ p.children := by
  unfold childCount childrenOf at h
  cases hl : lookupW w pid with
  | none =>
    rw [hl] at h
    simp at h
  | some p =>
    rw [hl] at h
    simp only [Option.map_some', Option.getD_some] at h
    exact ⟨p, rfl, List.count_pos_iff.mp h⟩

theorem childEnd_count_le (f : Nat) (w : World) (id pid : Nat) (c p : Ctx)
    (hl : lookupW w id = some c) (hp : c.parent = some pid) (hlp : lookupW w pid = some p)
    (hmem : id ∈ p.children) :
    childCount (endD (f + 1) w id).1 pid id + 1 ≤ childCount w pid id := by
  have hdef : endD (f + 1) w id =
      ((baseEndWith (endD f) (updateCtx w pid
          (fun q => { q with children := removeFirst q.children id })) id).1,
       notifyAll (snapshotObs p) Method.childContextEnding id
         ++ (baseEndWith (endD f) (updateCtx w pid
               (fun q => { q with children := removeFirst q.children id })) id).2
         ++ notifyAll (snapshotObs p) Method.childContextEnded id) := by
    simp only [endD, hl]
    rw [hp]
    dsimp only
    simp only [childEndWith, hlp, if_pos hmem]
  have e1 : childrenOf (updateCtx w pid
      (fun q => { q with children := removeFirst q.children id })) pid
      = removeFirst p.children id := by
    rw [childrenOf_update, if_pos rfl, hlp]
    rfl
  have e0 : childrenOf w pid = p.children := by
    unfold childrenOf
    rw [hlp]
    rfl
  have hex : ∃ c1, lookupW (updateCtx w pid
      (fun q => { q with children := removeFirst q.children id })) id = some c1 := by
    rw [lookupW_update]
    by_cases hip : id = pid
    · subst hip
      rw [if_pos rfl, hl]
      exact ⟨_, rfl⟩
    · rw [if_neg hip]
      exact ⟨c, hl⟩
  obtain ⟨c1, hlc1⟩ := hex
  obtain ⟨c2, hc2, _, hn2, ha2⟩ := baseEnd_ok (endD f) (endD_ok f) (updateCtx w pid
    (fun q => { q with children := removeFirst q.children id })) id id c1 hlc1
  have hcle : childCount (baseEndWith (endD f) (updateCtx w pid
      (fun q => { q with children := removeFirst q.children id })) id).1 pid id
      ≤ childCount (updateCtx w pid
          (fun q => { q with children := removeFirst q.children id })) pid id := by
    by_cases hc1A : c1.state = ContextState.Active
    · rcases ha2 hc1A with ⟨_, _, hcnt⟩ | ⟨_, _, hcnt⟩
      · exact Nat.le_of_eq (hcnt pid)
      · exact hcnt pid
    · exact ((hn2 hc1A).2.2) pid
  rw [hdef]
  dsimp only
  unfold childCount at hcle ⊢
  rw [e1] at hcle
  rw [e0]
  have hrem := count_removeFirst_self p.children id
  have hpos : 0 < p.children.count id := List.count_pos_iff.mpr hmem
  omega

/-- C4: the overridden `end` of a child created by `newChild`: while the child
is present in the parent's `children` it performs, in order, childContextEnding
notifications to the parent's snapshotted observers, removal of the child from
the parent's `children`, the base end sequence (after which an Active child's
state is Ended and its occurrence count in the parent's children has strictly
decreased), then childContextEnded notifications; when the child is absent
the call is a no-op. -/
theorem c4_child_end_sequence (f : Nat) (w : World) (id pid : Nat) (c p : Ctx)
    (hl : lookupW w id = some c) (hp : c.parent = some pid) (hlp : lookupW w pid = some p) :
    (id ∈ p.children →
      endD (f + 1) w id =
        ((baseEndWith (endD f) (updateCtx w pid
            (fun q => { q with children := removeFirst q.children id })) id).1,
         notifyAll (snapshotObs p) Method.childContextEnding id
           ++ (baseEndWith (endD f) (updateCtx w pid
                 (fun q => { q with children := removeFirst q.children id })) id).2
           ++ notifyAll (snapshotObs p) Method.childContextEnded id)) ∧
    (id ∈ p.children → c.state = ContextState.Active →
      ∃ c', lookupW (endD (f + 1) w id).1 id = some c' ∧ c'.state = ContextState.Ended ∧
        childCount (endD (f + 1) w id).1 pid id + 1 ≤ childCount w pid id) ∧
    (id ∉ p.children → endD (f + 1) w id = (w, [])) := by
  refine ⟨?_, ?_, ?_⟩
  · intro hmem
    simp only [endD, hl]
    rw [hp]
    dsimp only
    simp only [childEndWith, hlp, if_pos hmem]
  · intro hmem hact
    obtain ⟨c', hc', hsE, _, _⟩ := endD_fires f w id c hl hact (Or.inr ⟨pid, p, hp, hlp, hmem⟩)
    exact ⟨c', hc', hsE, childEnd_count_le f w id pid c p hl hp hlp hmem⟩
  · intro hnot
    simp only [endD, hl]
    rw [hp]
    dsimp only
    simp only [childEndWith, hlp, if_neg hnot]

theorem c4_child_end_sequence_witness :
    ∃ c', lookupW (endD 2 wFam 1).1 1 = some c' ∧ c'.state = ContextState.Ended ∧
      childCount (endD 2 wFam 1).1 0 1 + 1 ≤ childCount wFam 0 1 := by
  have h := c4_child_end_sequence 1 wFam 1 0 (mkCtx .Active (some 0) [] none [])
    (mkCtx .Active none [1, 2] (some [7]) []) (by decide) rfl (by decide)
  exact h.2.1 (by decide) rfl

theorem endAll_ends_all (g : Nat) (pid : Nat) :
    ∀ (l : List Nat) (w : World),
      (∀ x ∈ l, ∃ cx, lookupW w x = some cx ∧ cx.parent = some pid ∧
        ((cx.state = ContextState.Active ∧ 1 ≤ childCount w pid x) ∨
          cx.state = ContextState.Ended)) →
      ∀ x ∈ l,
        stateAt (endAll (endD (g + 1)) w l).1 x = some ContextState.Ended ∧
        (∀ cx, lookupW w x = some cx → cx.state = ContextState.Active →
          stateSetsFor x (endAll (endD (g + 1)) w l).2
            = [ContextState.Ending, ContextState.Ended]) ∧
        (∀ cx, lookupW w x = some cx → cx.state = ContextState.Ended →
          stateSetsFor x (endAll (endD (g + 1)) w l).2 = []) := by
  intro l
  induction l with
  | nil =>
    intro w _ x hx
    cases hx
  | cons y rest ih =>
    intro w hinv x hx
    simp only [endAll]
    obtain ⟨cy, hcy, hcyp, hcase⟩ := hinv y (by simp)
    have hy : stateAt (endD (g + 1) w y).1 y = some ContextState.Ended ∧
        (cy.state = ContextState.Active →
          stateSetsFor y (endD (g + 1) w y).2
            = [ContextState.Ending, ContextState.Ended]) ∧
        (cy.state = ContextState.Ended →
          stateSetsFor y (endD (g + 1) w y).2 = []) := by
      rcases hcase with ⟨hA, hcnt⟩ | hE
      · obtain ⟨p, hlp, hmem⟩ := childCount_pos w pid y hcnt
        obtain ⟨c', hc', hsE, _, hsets⟩ := endD_fires g w y cy hcy hA
          (Or.inr ⟨pid, p, hcyp, hlp, hmem⟩)
        refine ⟨?_, fun _ => hsets, fun hEE => ?_⟩
        · unfold stateAt
          rw [hc']
          simp [hsE]
        · rw [hA] at hEE
          exact ContextState.noConfusion hEE
      · obtain ⟨c', hc', _, hn, _⟩ := endD_ok (g + 1) w y y cy hcy
        obtain ⟨hs, hsets, _⟩ := hn (by rw [hE]; simp)
        refine ⟨?_, fun hAA => ?_, fun _ => hsets⟩
        · unfold stateAt
          rw [hc']
          simp [hs, hE]
        · rw [hE] at hAA
          exact ContextState.noConfusion hAA
    have hinv2 : ∀ z ∈ rest, ∃ cz, lookupW (endD (g + 1) w y).1 z = some cz ∧
        cz.parent = some pid ∧
        ((cz.state = ContextState.Active ∧ 1 ≤ childCount (endD (g + 1) w y).1 pid z) ∨
          cz.state = ContextState.Ended) := by
      intro z hz
      obtain ⟨cz, hcz, hczp, hzcase⟩ := hinv z (by simp [hz])
      obtain ⟨cz', hcz', hp', hn', ha'⟩ := endD_ok (g + 1) w y z cz hcz
      rcases hzcase with ⟨hA, hcnt⟩ | hE
      · rcases ha' hA with ⟨hs', _, hcnt'⟩ | ⟨hs', _, _⟩
        · exact ⟨cz', hcz', hp'.trans hczp, Or.inl ⟨hs', by rw [hcnt' pid]; exact hcnt⟩⟩
        · exact ⟨cz', hcz', hp'.trans hczp, Or.inr hs'⟩
      · obtain ⟨hs', _, _⟩ := hn' (by rw [hE]; simp)
        exact ⟨cz', hcz', hp'.trans hczp, Or.inr (hs'.trans hE)⟩
    rcases List.mem_cons.mp hx with hxy | hxr
    · subst hxy
      have hyE := hy.1
      cases hly : lookupW (endD (g + 1) w x).1 x with
      | none =>
        unfold stateAt at hyE
        rw [hly] at hyE
        exact Option.noConfusion hyE
      | some cy1 =>
        have hcy1E : cy1.state = ContextState.Ended := by
          unfold stateAt at hyE
          rw [hly] at hyE
          simp only [Option.map_some', Option.some.injEq] at hyE
          exact hyE
        obtain ⟨c2, hc2, _, hn2, _⟩ := endAll_ok (endD (g + 1)) (endD_ok (g + 1)) rest
          (endD (g + 1) w x).1 x cy1 hly
        obtain ⟨hs2, hsets2, _⟩ := hn2 (by rw [hcy1E]; simp)
        refine ⟨?_, ?_, ?_⟩
        · unfold stateAt
          rw [hc2]
          simp [hs2, hcy1E]
        · intro cx hcx hcxA
          have hcxy : cx = cy := by
            rw [hcy] at hcx
            cases hcx
            rfl
          rw [stateSetsFor_append, hy.2.1 (by rw [← hcxy]; exact hcxA), hsets2]
          rfl
        · intro cx hcx hcxE
          have hcxy : cx = cy := by
            rw [hcy] at hcx
            cases hcx
            rfl
          rw [stateSetsFor_append, hy.2.2 (by rw [← hcxy]; exact hcxE), hsets2]
          rfl
    · have hres := ih (endD (g + 1) w y).1 hinv2 x hxr
      refine ⟨hres.1, ?_, ?_⟩
      · intro cx hcx hcxA
        obtain ⟨cx', hcx', _, hn', ha'⟩ := endD_ok (g + 1) w y x cx hcx
        rcases ha' hcxA with ⟨hsA, hset1, _⟩ | ⟨hsE, hset1, _⟩
        · rw [stateSetsFor_append, hset1, hres.2.1 cx' hcx' hsA]
          rfl
        · rw [stateSetsFor_append, hset1, hres.2.2 cx' hcx' hsE]
          simp
      · intro cx hcx hcxE
        obtain ⟨cx', hcx', _, hn', _⟩ := endD_ok (g + 1) w y x cx hcx
        obtain ⟨hs', hset1, _⟩ := hn' (by rw [hcxE]; simp)
        rw [stateSetsFor_append, hset1, hres.2.2 cx' hcx' (hs'.trans hcxE)]
        rfl

/-- C8: `unwind()` iterates over a snapshot of `children` taken before the
iteration starts and calls `end()` on every child in it: each child present in
the snapshot (all Active, parented to the receiver) finishes in state Ended and
receives exactly one Ending/Ended state-assignment pair over the whole
unwind — none skipped, none double-processed, even though children are removed
from the live list during the iteration — and `unwind` returns the receiving
context itself. -/
theorem c8_unwind_snapshot (g : Nat) (w : World) (id : Nat)
    (h : ∀ x ∈ childrenOf w id, ∃ cx, lookupW w x = some cx ∧
      cx.state = ContextState.Active ∧ cx.parent = some id) :
    (∀ x ∈ childrenOf w id,
      stateAt (unwindD (g + 1) w id).1 x = some ContextState.Ended ∧
      stateSetsFor x (unwindD (g + 1) w id).2
        = [ContextState.Ending, ContextState.Ended]) ∧
    (unwindCtx w id).2 = id := by
  refine ⟨?_, rfl⟩
  intro x hx
  have hinv : ∀ z ∈ childrenOf w id, ∃ cz, lookupW w z = some cz ∧ cz.parent = some id ∧
      ((cz.state = ContextState.Active ∧ 1 ≤ childCount w id z) ∨
        cz.state = ContextState.Ended) := by
    intro z hz
    obtain ⟨cz, hcz, hczA, hczp⟩ := h z hz
    refine ⟨cz, hcz, hczp, Or.inl ⟨hczA, ?_⟩⟩
    unfold childCount
    exact List.count_pos_iff.mpr hz
  have hres := endAll_ends_all g id (childrenOf w id) w hinv x hx
  obtain ⟨cx, hcx, hcxA, _⟩ := h x hx
  exact ⟨hres.1, hres.2.1 cx hcx hcxA⟩

theorem c8_unwind_snapshot_witness :
    stateAt (unwindD 2 wFam 0).1 1 = some ContextState.Ended ∧
    stateSetsFor 1 (unwindD 2 wFam 0).2 = [ContextState.Ending, ContextState.Ended] ∧
    (unwindCtx wFam 0).2 = 0 := by
  have hchild : ∀ x ∈ childrenOf wFam 0, ∃ cx, lookupW wFam x = some cx ∧
      cx.state = ContextState.Active ∧ cx.parent = some 0 := by
    intro x hx
    have hx2 : x = 1 ∨ x = 2 := by
      have he : childrenOf wFam 0 = [1, 2] := by decide
      rw [he] at hx
      simpa using hx
    rcases hx2 with h1 | h2
    · subst h1
      exact ⟨mkCtx .Active (some 0) [] none [], by decide, rfl, rfl⟩
    · subst h2
      exact ⟨mkCtx .Active (some 0) [] none [], by decide, rfl, rfl⟩
  have h := c8_unwind_snapshot 1 wFam 0 hchild
  exact ⟨(h.1 1 (by decide)).1, (h.1 1 (by decide)).2, h.2⟩

theorem endD_noop_root (g : Nat) (w : World) (id : Nat) (c : Ctx)
    (hl : lookupW w id = some c) (hpar : c.parent = none)
    (hno : c.state ≠ ContextState.Active) :
    endD (g + 1) w id = (w, []) := by
  simp only [endD, hl]
  rw [hpar]
  dsimp only
  simp only [baseEndWith, hl, if_neg hno]

theorem endD_noop_child (g : Nat) (w : World) (id pid : Nat) (c p : Ctx)
    (hl : lookupW w id = some c) (hpar : c.parent = some pid)
    (hlp : lookupW w pid = some p) (hnot : id ∉ p.children) :
    endD (g + 1) w id = (w, []) := by
  simp only [endD, hl]
  rw [hpar]
  dsimp only
  simp only [childEndWith, hlp, if_neg hnot]

/-- C1: `end()` on an Active context performs exactly, in order: snapshot the
observers, set state to Ending, notify every snapshotted observer
`contextEnding`, unwind (ending all current children), set state to Ended,
notify every snapshotted observer `contextEnded`, then clear the observer
list — the first conjunct exhibits this sequence for a root context, and the
second shows the resulting state is Ended with the observer list cleared.
`end()` on a non-Active root, or on a child already absent from its parent's
children, changes nothing at all.  After one `end()` of an Active context a
second `end()` is a complete no-op, so the Ending/Ended pair — and with it the
contextEnding/contextEnded notification pair of the first conjunct — happens
exactly once. -/
theorem c1_end_sequence (f : Nat) (w : World) (id : Nat) (c : Ctx)
    (hl : lookupW w id = some c) :
    (c.parent = none → c.state = ContextState.Active →
      endD (f + 1) w id =
        (updateCtx (endAll (endD f) (setStateW w id ContextState.Ending)
            (childrenOf (setStateW w id ContextState.Ending) id)).1 id
            (fun q => { q with state := ContextState.Ended, observers := none }),
         (Event.stateSet id ContextState.Ending
            :: notifyAll (snapshotObs c) Method.contextEnding id)
           ++ (endAll (endD f) (setStateW w id ContextState.Ending)
                 (childrenOf (setStateW w id ContextState.Ending) id)).2
           ++ (Event.stateSet id ContextState.Ended
                 :: notifyAll (snapshotObs c) Method.contextEnded id))) ∧
    (c.parent = none → c.state = ContextState.Active →
      ∃ c', lookupW (endD (f + 1) w id).1 id = some c' ∧
        c'.state = ContextState.Ended ∧ c'.observers = none) ∧
    (c.parent = none → c.state ≠ ContextState.Active → ∀ g, endD g w id = (w, [])) ∧
    (∀ pid p, c.parent = some pid → lookupW w pid = some p → id ∉ p.children →
      ∀ g, endD g w id = (w, [])) ∧
    (c.state = ContextState.Active →
      (c.parent = none ∨ ∃ pid p, c.parent = some pid ∧ lookupW w pid = some p ∧
        p.children.count id = 1) →
      ∀ g, endD (g + 1) (endD (f + 1) w id).1 id = ((endD (f + 1) w id).1, [])) := by
  have hdef : c.parent = none → c.state = ContextState.Active →
      endD (f + 1) w id =
        (updateCtx (endAll (endD f) (setStateW w id ContextState.Ending)
            (childrenOf (setStateW w id ContextState.Ending) id)).1 id
            (fun q => { q with state := ContextState.Ended, observers := none }),
         (Event.stateSet id ContextState.Ending
            :: notifyAll (snapshotObs c) Method.contextEnding id)
           ++ (endAll (endD f) (setStateW w id ContextState.Ending)
                 (childrenOf (setStateW w id ContextState.Ending) id)).2
           ++ (Event.stateSet id ContextState.Ended
                 :: notifyAll (snapshotObs c) Method.contextEnded id)) := by
    intro hpar hact
    simp only [endD, hl]
    rw [hpar]
    dsimp only
    simp only [baseEndWith, hl, if_pos hact]
  refine ⟨hdef, ?_, ?_, ?_, ?_⟩
  · intro hpar hact
    obtain ⟨c2, hc2, _, _, _⟩ := endD_ok (f + 1) w id id c hl
    refine ⟨c2, hc2, ?_⟩
    rw [hdef hpar hact] at hc2
    dsimp only at hc2
    obtain ⟨cm, hcm, _, _, _⟩ := endAll_ok (endD f) (endD_ok f)
      (childrenOf (setStateW w id ContextState.Ending) id)
      (setStateW w id ContextState.Ending) id { c with state := ContextState.Ending }
      (by unfold setStateW; rw [lookupW_update, if_pos rfl, hl]; rfl)
    rw [lookupW_update, if_pos rfl, hcm] at hc2
    simp only [Option.map_some', Option.some.injEq] at hc2
    rw [← hc2]
    exact ⟨rfl, rfl⟩
  · intro hpar hno g
    cases g with
    | zero => rfl
    | succ g =>
      simp only [endD, hl]
      rw [hpar]
      dsimp only
      simp only [baseEndWith, hl, if_neg hno]
  · intro pid p hpar hlp hnot g
    cases g with
    | zero => rfl
    | succ g =>
      simp only [endD, hl]
      rw [hpar]
      dsimp only
      simp only [childEndWith, hlp, if_neg hnot]
  · intro hact hcase g
    rcases hcase with hnone | ⟨pid, p, hpar, hlp, hcount⟩
    · obtain ⟨c', hc', hsE, hpp, _⟩ := endD_fires f w id c hl hact (Or.inl hnone)
      have hpn : c'.parent = none := by rw [hpp, hnone]
      exact endD_noop_root g _ id c' hc' hpn (by rw [hsE]; simp)
    · have hmem : id ∈ p.children := by
        have hpos : 0 < p.children.count id := by omega
        exact List.count_pos_iff.mp hpos
      obtain ⟨c', hc', hsE, hpp, _⟩ := endD_fires f w id c hl hact
        (Or.inr ⟨pid, p, hpar, hlp, hmem⟩)
      have hpn : c'.parent = some pid := by rw [hpp, hpar]
      obtain ⟨p', hp', _, _, _⟩ := endD_ok (f + 1) w id pid p hlp
      have hw1 : childCount w pid id = 1 := by
        unfold childCount childrenOf
        rw [hlp]
        exact hcount
      have hcnt0 : childCount (endD (f + 1) w id).1 pid id = 0 := by
        have hle := childEnd_count_le f w id pid c p hl hpar hlp hmem
        omega
      have hnotmem : id ∉ p'.children := by
        intro hm
        have hpos : 0 < childCount (endD (f + 1) w id).1 pid id := by
          unfold childCount childrenOf
          rw [hp']
          exact List.count_pos_iff.mpr hm
        omega
      exact endD_noop_child g _ id pid c' p' hc' hpn hp' hnotmem

theorem c1_end_sequence_witness :
    endD 3 wFam 0 =
      (updateCtx (endAll (endD 2) (setStateW wFam 0 ContextState.Ending)
          (childrenOf (setStateW wFam 0 ContextState.Ending) 0)).1 0
          (fun q => { q with state := ContextState.Ended, observers := none }),
       (Event.stateSet 0 ContextState.Ending
          :: notifyAll (snapshotObs (mkCtx .Active none [1, 2] (some [7]) []))
               Method.contextEnding 0)
         ++ (endAll (endD 2) (setStateW wFam 0 ContextState.Ending)
               (childrenOf (setStateW wFam 0 ContextState.Ending) 0)).2
         ++ (Event.stateSet 0 ContextState.Ended
               :: notifyAll (snapshotObs (mkCtx .Active none [1, 2] (some [7]) []))
                    Method.contextEnded 0)) ∧
    (∃ c', lookupW (endD 3 wFam 0).1 0 = some c' ∧
      c'.state = ContextState.Ended ∧ c'.observers = none) ∧
    endD 4 wEnded 0 = (wEnded, []) ∧
    endD 5 (endD 3 wFam 0).1 0 = ((endD 3 wFam 0).1, []) := by
  have h := c1_end_sequence 2 wFam 0 (mkCtx .Active none [1, 2] (some [7]) [])
    (by decide)
  have h2 := c1_end_sequence 3 wEnded 0 (mkCtx .Ended none [] none []) (by decide)
  exact ⟨h.1 rfl rfl, h.2.1 rfl rfl, h2.2.2.1 rfl (by decide) 4, h.2.2.2.2 rfl (Or.inl rfl) 4⟩

end MirukenContext
